import Mathlib

/-!
# docker-image-checker: the update-detection engine

A shallow embedding of `internal/model/types.go`, `internal/docker/checker.go`,
`internal/docker/strategy_registry.go` and the parts of `internal/docker/client.go`
they call, followed by theorems about the checking pipeline.

Modelling conventions.

* Go `string` is Lean `String`; the functions of package `strings` that the code
  calls are defined on the character list of the string.
* Go `error` is `Option GoError` (`none` is `nil`); a Go result pair `(T, error)`
  is `Except GoError T`: a strategy's `Check` returns a verdict or an error.
* The outside world (Docker daemon, registries, Docker Hub) is an abstract state
  `W`; every call that reaches it is a function `W → result × W`, so answers may
  change from call to call.  Every such call, and every call the dispatcher makes
  on a strategy, is recorded in a call log (`Outcome.calls`), so that "is not
  attempted" and "is never consulted" are statements about the log.
* `CanHandle` has no context and no error result in the interface; it is a function
  of the container.
* The Docker SDK client, `net/http`, `encoding/json` and `sort.Slice` are library
  code and are parameters (`client.Client`, `StdLib`).  `sort.Slice` is constrained
  in the theorems by its documented contract (`SortSliceContract`): the result is a
  sorted rearrangement, and the sort is not guaranteed to be stable.
* The Docker client that `NewRegistryStrategy` creates is passed to it.
-/

namespace DockerImageChecker

/-- A Go `error` value, identified by its message. -/
structure GoError where
  msg : String
deriving DecidableEq, Repr

/-! ## Package `strings` -/

namespace strings

/-- Go `strings.HasPrefix(s, lead)`. -/
def HasPrefix (s lead : String) : Bool :=
  lead.data.isPrefixOf s.data

/-- Substring search on character lists: does `sub` occur in the list at some offset. -/
def containsChars (sub : List Char) : List Char → Bool
  | [] => sub.isEmpty
  | c :: cs => sub.isPrefixOf (c :: cs) || containsChars sub cs

/-- Go `strings.Contains(s, substr)`. -/
def Contains (s substr : String) : Bool :=
  containsChars substr.data s.data

/-- Cut a character list at every occurrence of `sep`; always yields at least one piece. -/
def splitChars (sep : Char) : List Char → List (List Char)
  | [] => [[]]
  | c :: cs =>
    if c = sep then
      [] :: splitChars sep cs
    else
      match splitChars sep cs with
      | [] => [[c]]
      | p :: ps => (c :: p) :: ps

/-- Go `strings.Split(s, sep)` for a one-character separator (the code only splits on
the string made of a single colon). -/
def Split (s : String) (sep : Char) : List String :=
  (splitChars sep s.data).map String.mk

end strings

/-! ## Package `model` (`internal/model/types.go`) -/

namespace model

/-- Go `model.Container`. -/
structure Container where
  ID : String
  Name : String
  ImageName : String
  ImageID : String
  Status : String
deriving DecidableEq, Repr

/-- Go `model.UpdateInfo`. -/
structure UpdateInfo where
  Container : Container
  CurrentVersion : String
  LatestVersion : String
  IsUpToDate : Bool
  Error : Option GoError
deriving DecidableEq, Repr

/-- Go `model.CheckReport`; `Timestamp` is an instant, zero until the caller sets it. -/
structure CheckReport where
  Hostname : String
  Timestamp : Int
  Total : Nat
  Available : List UpdateInfo
  Failed : List UpdateInfo
  UpToDate : List UpdateInfo
deriving DecidableEq, Repr

end model

/-! ## Calls and outcomes -/

/-- The calls recorded in the log: calls of the dispatcher on a strategy (by its
position in the strategy list) and calls that leave the process. -/
inductive Call where
  | ListContainers
  | CanHandle (strategy : Nat) (container : model.Container)
  | Check (strategy : Nat) (container : model.Container)
  | GetImageInfo (imageID : String)
  | DistributionInspect (image : String)
  | HTTPGet (url : String)
deriving DecidableEq, Repr

/-- The result of running a piece of code from a world state: the value returned,
the world afterwards, and the calls made, in order. -/
structure Outcome (W α : Type) where
  val : α
  world : W
  calls : List Call

/-! ## External packages: Docker SDK types, `net/http`, `encoding/json`, `sort`, `time` -/

namespace types

/-- The fields of the Docker SDK type `types.ImageInspect` that the code reads. -/
structure ImageInspect where
  ID : String
  RepoTags : List String
deriving DecidableEq, Repr

end types

namespace registry

/-- The descriptor of a remote image; `Digest` is the text `Digest.String()` returns. -/
structure Descriptor where
  Digest : String
deriving DecidableEq, Repr

/-- The field of the Docker SDK type `registry.DistributionInspect` that the code reads. -/
structure DistributionInspect where
  Descriptor : Descriptor
deriving DecidableEq, Repr

end registry

namespace client

/-- The two methods of the Docker SDK `client.Client` that `DockerClient` forwards to
for image checks; each answers from, and may change, the world. -/
structure Client (W : Type) where
  ImageInspectWithRaw : String → W → Except GoError types.ImageInspect × W
  DistributionInspect : String → W → Except GoError registry.DistributionInspect × W

end client

namespace time

/-- Go `t.After(u)` on instants. -/
def After (t u : Int) : Bool := decide (u < t)

end time

namespace http

/-- What the code reads of a Go `http.Response`. -/
structure Response where
  StatusCode : Nat
  Body : String
deriving DecidableEq, Repr

/-- Go `http.StatusOK`. -/
def StatusOK : Nat := 200

end http

/-! ## Package `docker`: interfaces (`checker.go`) -/

namespace docker

/-- Go interface `CheckStrategy`.  `Check` returns a verdict or a Go error. -/
structure CheckStrategy (W : Type) where
  Check : model.Container → W → Outcome W (Except GoError model.UpdateInfo)
  CanHandle : model.Container → Bool

/-- Go interface `Client`. -/
structure Client (W : Type) where
  ListContainers : W → Except GoError (List model.Container) × W
  Close : W → Option GoError × W

/-- Go struct `Checker`. -/
structure Checker (W : Type) where
  client : Client W
  strategies : List (CheckStrategy W)

/-- Go `(*Checker).RegisterStrategy`: append to the strategy list. -/
def Checker.RegisterStrategy {W : Type} (c : Checker W) (strategy : CheckStrategy W) : Checker W :=
  { c with strategies := c.strategies ++ [strategy] }

/-- The `for _, strategy := range c.strategies` loop of `checkContainer`, from the
strategy at position `idx` on. -/
def Checker.checkContainerFrom {W : Type} :
    List (CheckStrategy W) → Nat → model.Container → W →
      Outcome W (Except GoError model.UpdateInfo)
  | [], _, container, w =>
    { val := .ok { Container := container, CurrentVersion := "", LatestVersion := "",
                   IsUpToDate := true, Error := none }
      world := w
      calls := [] }
  | strategy :: rest, idx, container, w =>
    if strategy.CanHandle container then
      let r := strategy.Check container w
      { val := r.val, world := r.world
        calls := Call.CanHandle idx container :: Call.Check idx container :: r.calls }
    else
      let r := Checker.checkContainerFrom rest (idx + 1) container w
      { val := r.val, world := r.world, calls := Call.CanHandle idx container :: r.calls }

/-- Go `(*Checker).checkContainer`. -/
def Checker.checkContainer {W : Type} (c : Checker W) (container : model.Container) (w : W) :
    Outcome W (Except GoError model.UpdateInfo) :=
  Checker.checkContainerFrom c.strategies 0 container w

/-- The body of the `for _, container := range containers` loop of `CheckAll`:
where the result of `checkContainer` goes in the report. -/
def Checker.CheckAll.place (report : model.CheckReport) (container : model.Container)
    (res : Except GoError model.UpdateInfo) : model.CheckReport :=
  match res with
  | .error err =>
    let updateInfo : model.UpdateInfo :=
      { Container := container, CurrentVersion := "", LatestVersion := "",
        IsUpToDate := false, Error := some err }
    { report with Failed := report.Failed ++ [updateInfo] }
  | .ok updateInfo =>
    if updateInfo.Error ≠ none then
      { report with Failed := report.Failed ++ [updateInfo] }
    else if !updateInfo.IsUpToDate then
      { report with Available := report.Available ++ [updateInfo] }
    else
      { report with UpToDate := report.UpToDate ++ [updateInfo] }

/-- The `for _, container := range containers` loop of `CheckAll`. -/
def Checker.CheckAll.loop {W : Type} (c : Checker W) :
    List model.Container → model.CheckReport → W → Outcome W model.CheckReport
  | [], report, w => { val := report, world := w, calls := [] }
  | container :: rest, report, w =>
    let r := c.checkContainer container w
    let r2 := Checker.CheckAll.loop c rest (Checker.CheckAll.place report container r.val) r.world
    { val := r2.val, world := r2.world, calls := r.calls ++ r2.calls }

/-- Go `(*Checker).CheckAll`. -/
def Checker.CheckAll {W : Type} (c : Checker W) (w : W) :
    Outcome W (Except GoError model.CheckReport) :=
  match c.client.ListContainers w with
  | (.error err, w1) => { val := .error err, world := w1, calls := [Call.ListContainers] }
  | (.ok containers, w1) =>
    let report : model.CheckReport :=
      { Hostname := "", Timestamp := 0, Total := containers.length,
        Available := [], Failed := [], UpToDate := [] }
    let r := Checker.CheckAll.loop c containers report w1
    { val := .ok r.val, world := r.world, calls := Call.ListContainers :: r.calls }

/-- Go `(*Checker).Close`. -/
def Checker.Close {W : Type} (c : Checker W) (w : W) : Option GoError × W :=
  c.client.Close w

/-! ## Package `docker`: `client.go` -/

/-- Go struct `DockerClient`. -/
structure DockerClient (W : Type) where
  cli : client.Client W

/-- Go `(*DockerClient).GetImageInfo`. -/
def DockerClient.GetImageInfo {W : Type} (dc : DockerClient W) (imageID : String) (w : W) :
    Outcome W (Except GoError types.ImageInspect) :=
  let r := dc.cli.ImageInspectWithRaw imageID w
  { val := r.1, world := r.2, calls := [Call.GetImageInfo imageID] }

/-- Go `(*DockerClient).DistributionInspect`. -/
def DockerClient.DistributionInspect {W : Type} (dc : DockerClient W) (image : String) (w : W) :
    Outcome W (Except GoError registry.DistributionInspect) :=
  let r := dc.cli.DistributionInspect image w
  { val := r.1, world := r.2, calls := [Call.DistributionInspect image] }

/-! ## Package `docker`: `strategy_registry.go` -/

/-- Go struct `DockerHubTag`; `LastUpdated` is an instant. -/
structure DockerHubTag where
  Name : String
  LastUpdated : Int
deriving DecidableEq, Repr

/-- Go struct `DockerHubResponse`. -/
structure DockerHubResponse where
  Results : List DockerHubTag
deriving DecidableEq, Repr

/-- The standard-library facilities `getLatestVersionFromDockerHub` uses: an HTTP GET
(with its timeout, a failure is an error result), the JSON decoding of a response
body, and `sort.Slice` applied to a comparison of elements. -/
structure StdLib (W : Type) where
  httpGet : String → W → Except GoError http.Response × W
  jsonDecode : String → Except GoError DockerHubResponse
  sortSlice : (DockerHubTag → DockerHubTag → Bool) → List DockerHubTag → List DockerHubTag

/-- Go struct `RegistryStrategy`. -/
structure RegistryStrategy (W : Type) where
  dockerClient : DockerClient W

/-- Go `NewRegistryStrategy`; the Docker client it creates is passed in. -/
def NewRegistryStrategy {W : Type} (dc : DockerClient W) : RegistryStrategy W :=
  { dockerClient := dc }

/-- Go `(*RegistryStrategy).CanHandle` (the receiver is not used). -/
def RegistryStrategy.CanHandle (container : model.Container) : Bool :=
  if strings.Contains container.ImageName "<none>" then
    false
  else if strings.HasPrefix container.ImageName "localhost/" ||
      strings.HasPrefix container.ImageName "local/" ||
      strings.Contains container.ImageName "build" then
    false
  else
    true

/-- Go `(*RegistryStrategy).extractTag` (the receiver is not used). -/
def RegistryStrategy.extractTag (image : String) : String :=
  let parts := strings.Split image ':'
  if h : parts.length > 1 then
    parts.get ⟨parts.length - 1, by omega⟩
  else
    "latest"

/-- Go `(*RegistryStrategy).extractRepository` (the receiver is not used). -/
def RegistryStrategy.extractRepository (imageName : String) : String :=
  let parts := strings.Split imageName ':'
  match parts with
  | [] => ""
  | first :: _ =>
    let repo := first
    if !strings.Contains repo "/" then
      "library/" ++ repo
    else
      repo

/-- The condition of the `if` in the tag loop of `getLatestVersionFromDockerHub`. -/
def RegistryStrategy.getLatestVersionFromDockerHub.accepts (tag : DockerHubTag) : Bool :=
  tag.Name != "latest" && !strings.Contains tag.Name "rc" &&
    !strings.Contains tag.Name "beta" && !strings.Contains tag.Name "alpha"

/-- The `for _, tag := range response.Results` loop of `getLatestVersionFromDockerHub`
together with the `return "latest", nil` after it. -/
def RegistryStrategy.getLatestVersionFromDockerHub.scan : List DockerHubTag → String
  | [] => "latest"
  | tag :: rest =>
    if RegistryStrategy.getLatestVersionFromDockerHub.accepts tag then
      tag.Name
    else
      RegistryStrategy.getLatestVersionFromDockerHub.scan rest

/-- The comparison handed to `sort.Slice`, on the elements at the two indices. -/
def RegistryStrategy.getLatestVersionFromDockerHub.less (a b : DockerHubTag) : Bool :=
  time.After a.LastUpdated b.LastUpdated

/-- The `fmt.Sprintf` that builds the URL of the tag list of a repository. -/
def RegistryStrategy.getLatestVersionFromDockerHub.url (repo : String) : String :=
  "https://registry.hub.docker.com/v2/repositories/" ++ repo ++ "/tags/?page_size=100"

/-- Go `(*RegistryStrategy).getLatestVersionFromDockerHub` (the receiver is not used). -/
def RegistryStrategy.getLatestVersionFromDockerHub {W : Type} (lib : StdLib W)
    (imageName : String) (w : W) : Outcome W (Except GoError String) :=
  let repo := RegistryStrategy.extractRepository imageName
  if repo = "" then
    { val := .error ⟨"unable to extract repository from image name"⟩, world := w, calls := [] }
  else
    let url := RegistryStrategy.getLatestVersionFromDockerHub.url repo
    match lib.httpGet url w with
    | (.error err, w1) =>
      { val := .error ⟨"failed to fetch tags from Docker Hub: " ++ err.msg⟩
        world := w1, calls := [Call.HTTPGet url] }
    | (.ok resp, w1) =>
      if resp.StatusCode ≠ http.StatusOK then
        { val := .error ⟨"Docker Hub API returned status code: " ++ toString resp.StatusCode⟩
          world := w1, calls := [Call.HTTPGet url] }
      else
        match lib.jsonDecode resp.Body with
        | .error err =>
          { val := .error ⟨"failed to decode Docker Hub response: " ++ err.msg⟩
            world := w1, calls := [Call.HTTPGet url] }
        | .ok response =>
          let results :=
            lib.sortSlice RegistryStrategy.getLatestVersionFromDockerHub.less response.Results
          { val := .ok (RegistryStrategy.getLatestVersionFromDockerHub.scan results)
            world := w1, calls := [Call.HTTPGet url] }

/-- Go `(*RegistryStrategy).Check`.  Its Go error result is always `nil`. -/
def RegistryStrategy.Check {W : Type} (lib : StdLib W) (rs : RegistryStrategy W)
    (container : model.Container) (w : W) : Outcome W (Except GoError model.UpdateInfo) :=
  let updateInfo : model.UpdateInfo :=
    { Container := container, CurrentVersion := "unknown", LatestVersion := "unknown",
      IsUpToDate := true, Error := none }
  let r1 := rs.dockerClient.GetImageInfo container.ImageID w
  match r1.val with
  | .error err =>
    { val := .ok { updateInfo with Error := some err }, world := r1.world, calls := r1.calls }
  | .ok localImage =>
    let updateInfo : model.UpdateInfo :=
      match localImage.RepoTags with
      | [] => updateInfo
      | first :: _ => { updateInfo with CurrentVersion := RegistryStrategy.extractTag first }
    let r2 := rs.dockerClient.DistributionInspect container.ImageName r1.world
    match r2.val with
    | .error err =>
      { val := .ok { updateInfo with Error := some err }, world := r2.world
        calls := r1.calls ++ r2.calls }
    | .ok remoteInfo =>
      let localDigest := localImage.ID
      let remoteDigest := remoteInfo.Descriptor.Digest
      if localDigest != remoteDigest then
        let r3 := RegistryStrategy.getLatestVersionFromDockerHub lib container.ImageName r2.world
        let latestVersion :=
          match r3.val with
          | .error _ => RegistryStrategy.extractTag container.ImageName
          | .ok latestVersion => latestVersion
        { val := .ok { updateInfo with IsUpToDate := false, LatestVersion := latestVersion }
          world := r3.world, calls := r1.calls ++ r2.calls ++ r3.calls }
      else
        { val := .ok updateInfo, world := r2.world, calls := r1.calls ++ r2.calls }

/-- A `RegistryStrategy` seen through the `CheckStrategy` interface. -/
def RegistryStrategy.toCheckStrategy {W : Type} (lib : StdLib W) (rs : RegistryStrategy W) :
    CheckStrategy W :=
  { Check := fun container w => rs.Check lib container w
    CanHandle := fun container => RegistryStrategy.CanHandle container }

/-- Go `NewChecker`: an empty strategy list, then the registry strategy registered. -/
def NewChecker {W : Type} (lib : StdLib W) (dc : DockerClient W) (client : Client W) :
    Checker W :=
  let checker : Checker W := { client := client, strategies := [] }
  checker.RegisterStrategy ((NewRegistryStrategy dc).toCheckStrategy lib)

/-! ## Vocabulary of the statements -/

/-- The verdict the loop of `CheckAll` files for a container, given what
`checkContainer` returned for it: the verdict itself, or, for a Go error, the fresh
`UpdateInfo` that carries the error. -/
def Checker.CheckAll.verdict (container : model.Container)
    (res : Except GoError model.UpdateInfo) : model.UpdateInfo :=
  match res with
  | .error err =>
    { Container := container, CurrentVersion := "", LatestVersion := "",
      IsUpToDate := false, Error := some err }
  | .ok updateInfo => updateInfo

/-- The world in which the container after `pre` is dispatched, when the containers of
`pre` are dispatched one after the other from `w`. -/
def Checker.worldAfter {W : Type} (c : Checker W) : List model.Container → W → W
  | [], w => w
  | container :: rest, w => Checker.worldAfter c rest (c.checkContainer container w).world

/-- The verdicts of dispatching the containers one after the other from `w`, in order. -/
def Checker.verdicts {W : Type} (c : Checker W) : List model.Container → W → List model.UpdateInfo
  | [], _ => []
  | container :: rest, w =>
    Checker.CheckAll.verdict container (c.checkContainer container w).val ::
      Checker.verdicts c rest (c.checkContainer container w).world

/-- A verdict that carries an error. -/
def goesToFailed (v : model.UpdateInfo) : Bool := v.Error.isSome

/-- A verdict without error that is not up to date. -/
def goesToAvailable (v : model.UpdateInfo) : Bool := v.Error.isNone && !v.IsUpToDate

/-- A verdict without error that is up to date. -/
def goesToUpToDate (v : model.UpdateInfo) : Bool := v.Error.isNone && v.IsUpToDate

/-- The requirement Go documents for a `less` function: irreflexive, transitive, and
with a transitive "neither is less" relation. -/
def LessOrdering {α : Type} (less : α → α → Bool) : Prop :=
  (∀ a, less a a = false) ∧
  (∀ a b c, less a b = true → less b c = true → less a c = true) ∧
  (∀ a b c, less a b = false → less b c = false → less a c = false)

/-- The documented contract of `sort.Slice`: for a well-behaved `less` the result is a
rearrangement of the input in which no element is less than an earlier one.  Elements
neither of which is less than the other may come out in any order. -/
def SortSliceContract
    (sortSlice : (DockerHubTag → DockerHubTag → Bool) → List DockerHubTag → List DockerHubTag) :
    Prop :=
  ∀ less, LessOrdering less → ∀ l,
    (sortSlice less l).Perm l ∧ (sortSlice less l).Pairwise (fun a b => less b a = false)

/-- The stable sort for a `less` function: insertion sort, which inserts each element
in front of the sorted rest, before the first element that is not less than it, so that
ties keep their input order. -/
def stableSort (less : DockerHubTag → DockerHubTag → Bool) (l : List DockerHubTag) :
    List DockerHubTag :=
  l.insertionSort (fun a b => less b a = false)

end docker

/-! ## A concrete world, for evaluating the definitions -/

namespace Example

open docker

/-- Exchange the first element of a list with the one in the middle (at index
`length / 2`), the way a quicksort moves its pivot to the front. -/
def swapFirstWithMiddle : List DockerHubTag → List DockerHubTag
  | [] => []
  | x :: xs =>
    match xs.drop ((xs.length + 1) / 2 - 1) with
    | [] => x :: xs
    | p :: after => p :: (xs.take ((xs.length + 1) / 2 - 1) ++ x :: after)

/-- A sort that meets the contract of `sort.Slice` and is not stable: it moves the
middle element to the front, then sorts by insertion. -/
def pivotFirstSort (less : DockerHubTag → DockerHubTag → Bool) (l : List DockerHubTag) :
    List DockerHubTag :=
  stableSort less (swapFirstWithMiddle l)

/-- Thirteen release tags, all last updated at instant 5 except the fifth, older one. -/
def tiedTags : List DockerHubTag :=
  [⟨"1.0", 5⟩, ⟨"1.1", 5⟩, ⟨"1.2", 5⟩, ⟨"1.3", 5⟩, ⟨"1.4", 1⟩, ⟨"1.5", 5⟩, ⟨"1.6", 5⟩,
   ⟨"1.7", 5⟩, ⟨"1.8", 5⟩, ⟨"1.9", 5⟩, ⟨"1.10", 5⟩, ⟨"1.11", 5⟩, ⟨"1.12", 5⟩]

/-- The tag list of the pre-release example, in response order. -/
def tags : List DockerHubTag :=
  [⟨"2.1.0", 20⟩, ⟨"2.2.0-rc1", 30⟩, ⟨"2.0.0", 10⟩]

/-- Docker daemon and registry: the world counts the calls; image id `missing` is not
found locally, image `private/app:1` is refused by its registry, every other remote
digest is `sha256:AAA`. -/
def sdk : client.Client Nat :=
  { ImageInspectWithRaw := fun imageID w =>
      if imageID = "missing" then (.error ⟨"No such image"⟩, w + 1)
      else (.ok { ID := imageID, RepoTags := ["redis:7"] }, w + 1)
    DistributionInspect := fun image w =>
      if image = "private/app:1" then (.error ⟨"unauthorized"⟩, w + 1)
      else (.ok { Descriptor := { Digest := "sha256:AAA" } }, w + 1) }

/-- The `DockerClient` over `sdk`. -/
def dockerClient : DockerClient Nat := { cli := sdk }

/-- A standard library whose HTTP GET answers 200 and whose decoded body is `results`. -/
def libWith (results : List DockerHubTag)
    (sortSlice : (DockerHubTag → DockerHubTag → Bool) → List DockerHubTag → List DockerHubTag) :
    StdLib Nat :=
  { httpGet := fun _ w => (.ok { StatusCode := 200, Body := "" }, w + 1)
    jsonDecode := fun _ => .ok { Results := results }
    sortSlice := sortSlice }

/-- The standard library answering with `tags`, sorted stably. -/
def lib : StdLib Nat := libWith tags stableSort

/-- The standard library answering with a single release tag that is named `unknown`. -/
def unknownLib : StdLib Nat := libWith [⟨"unknown", 40⟩] stableSort

/-- The standard library answering with `tiedTags`, sorted by `pivotFirstSort`. -/
def tiedLib : StdLib Nat := libWith tiedTags pivotFirstSort

/-- An up-to-date container. -/
def redis : model.Container :=
  { ID := "c1", Name := "cache", ImageName := "redis:7", ImageID := "sha256:AAA", Status := "Up" }

/-- A container whose image differs from the registry's. -/
def nginx : model.Container :=
  { ID := "c2", Name := "web", ImageName := "nginx:1.25", ImageID := "sha256:BBB", Status := "Up" }

/-- A container whose local image cannot be inspected. -/
def ghost : model.Container :=
  { ID := "c3", Name := "ghost", ImageName := "ghost:5", ImageID := "missing", Status := "Up" }

/-- A container whose registry refuses the inspection. -/
def priv : model.Container :=
  { ID := "c4", Name := "app", ImageName := "private/app:1", ImageID := "sha256:CCC",
    Status := "Up" }

/-- A container of a dangling image. -/
def dangling : model.Container :=
  { ID := "c5", Name := "old", ImageName := "<none>", ImageID := "sha256:DDD", Status := "Up" }

/-- The containers listed. -/
def containers : List model.Container := [redis, nginx, ghost, priv, dangling]

/-- A runtime client that lists `containers`. -/
def runtime : docker.Client Nat :=
  { ListContainers := fun w => (.ok containers, w + 1)
    Close := fun w => (none, w) }

/-- The default checker over the example world. -/
def checker : Checker Nat := NewChecker lib dockerClient runtime

/-- A strategy that claims nothing. -/
def idle : CheckStrategy Nat :=
  { Check := fun container w =>
      { val := .error ⟨"idle"⟩, world := w + 100, calls := [Call.HTTPGet container.ID] }
    CanHandle := fun _ => false }

/-- A strategy that claims images named `redis:7` and reports them stale. -/
def eager : CheckStrategy Nat :=
  { Check := fun container w =>
      { val := .ok { Container := container, CurrentVersion := "7", LatestVersion := "8",
                     IsUpToDate := false, Error := none }
        world := w + 1, calls := [] }
    CanHandle := fun container => container.ImageName = "redis:7" }

/-- A container running `redis:7` from an image that differs from the registry's. -/
def staleRedis : model.Container :=
  { ID := "c6", Name := "cache2", ImageName := "redis:7", ImageID := "sha256:OLD",
    Status := "Up" }

/-- The standard library whose tag listing succeeds with an empty result. -/
def emptyLib : StdLib Nat := libWith [] stableSort

/-- The standard library whose tag listing succeeds with `latest` and pre-releases only. -/
def prereleaseLib : StdLib Nat :=
  libWith [⟨"latest", 50⟩, ⟨"8.0-rc1", 40⟩, ⟨"8.0-beta2", 30⟩, ⟨"8.0-alpha", 20⟩] stableSort

/-- The standard library whose HTTP GET fails. -/
def downLib : StdLib Nat :=
  { httpGet := fun _ w => (.error ⟨"dial tcp: i/o timeout"⟩, w + 1)
    jsonDecode := fun _ => .ok { Results := tags }
    sortSlice := stableSort }

/-- The standard library whose HTTP GET answers 404. -/
def notFoundLib : StdLib Nat :=
  { httpGet := fun _ w => (.ok { StatusCode := 404, Body := "" }, w + 1)
    jsonDecode := fun _ => .ok { Results := tags }
    sortSlice := stableSort }

/-- A container whose image name contains `build` and whose image differs from the
registry's. -/
def builder : model.Container :=
  { ID := "c7", Name := "ci", ImageName := "mybuilder:2", ImageID := "sha256:BBB",
    Status := "Up" }

/-- A runtime client that lists `builder` only. -/
def builderRuntime : docker.Client Nat :=
  { ListContainers := fun w => (.ok [builder], w + 1)
    Close := fun w => (none, w) }

/-- An image reference with a registry port and a tag. -/
def portReference : String := "registry.example.com:5000/app:1.0"

end Example


/-! ## Lemmas on the loop of `CheckAll` -/

namespace docker

theorem place_eq_filter (report : model.CheckReport) (container : model.Container)
    (res : Except GoError model.UpdateInfo) :
    Checker.CheckAll.place report container res =
      { report with
        Available := report.Available ++
          [Checker.CheckAll.verdict container res].filter goesToAvailable
        Failed := report.Failed ++ [Checker.CheckAll.verdict container res].filter goesToFailed
        UpToDate := report.UpToDate ++
          [Checker.CheckAll.verdict container res].filter goesToUpToDate } := by
  cases res with
  | error err =>
    simp [Checker.CheckAll.place, Checker.CheckAll.verdict, goesToAvailable, goesToFailed,
      goesToUpToDate]
  | ok u =>
    cases hE : u.Error with
    | some e =>
      simp [Checker.CheckAll.place, Checker.CheckAll.verdict, goesToAvailable, goesToFailed,
        goesToUpToDate, hE]
    | none =>
      cases hU : u.IsUpToDate <;>
        simp [Checker.CheckAll.place, Checker.CheckAll.verdict, goesToAvailable, goesToFailed,
          goesToUpToDate, hE, hU]

theorem loop_val {W : Type} (c : Checker W) (containers : List model.Container) :
    ∀ (report : model.CheckReport) (w : W),
      (Checker.CheckAll.loop c containers report w).val =
        { report with
          Available := report.Available ++ (c.verdicts containers w).filter goesToAvailable
          Failed := report.Failed ++ (c.verdicts containers w).filter goesToFailed
          UpToDate := report.UpToDate ++ (c.verdicts containers w).filter goesToUpToDate } := by
  induction containers with
  | nil => intro report w; simp [Checker.CheckAll.loop, Checker.verdicts]
  | cons x rest ih =>
    intro report w
    simp only [Checker.CheckAll.loop, Checker.verdicts, ih, place_eq_filter]
    simp [List.filter_cons, List.append_assoc]
    refine ⟨?_, ?_, ?_⟩ <;> split <;> simp

theorem loop_world {W : Type} (c : Checker W) (containers : List model.Container) :
    ∀ (report : model.CheckReport) (w : W),
      (Checker.CheckAll.loop c containers report w).world = c.worldAfter containers w := by
  induction containers with
  | nil => intro report w; rfl
  | cons x rest ih => intro report w; simp [Checker.CheckAll.loop, Checker.worldAfter, ih]

theorem verdicts_length {W : Type} (c : Checker W) (containers : List model.Container) :
    ∀ w : W, (c.verdicts containers w).length = containers.length := by
  induction containers with
  | nil => intro w; rfl
  | cons x rest ih => intro w; simp [Checker.verdicts, ih]

theorem verdicts_append {W : Type} (c : Checker W) (pre post : List model.Container) :
    ∀ w : W, c.verdicts (pre ++ post) w =
      c.verdicts pre w ++ c.verdicts post (c.worldAfter pre w) := by
  induction pre with
  | nil => intro w; rfl
  | cons x rest ih => intro w; simp [Checker.verdicts, Checker.worldAfter, ih]

theorem checkAll_ok {W : Type} (c : Checker W) (w w1 : W) (containers : List model.Container)
    (hlist : c.client.ListContainers w = (.ok containers, w1)) :
    (c.CheckAll w).val = .ok
      { Hostname := "", Timestamp := 0, Total := containers.length
        Available := (c.verdicts containers w1).filter goesToAvailable
        Failed := (c.verdicts containers w1).filter goesToFailed
        UpToDate := (c.verdicts containers w1).filter goesToUpToDate } := by
  simp [Checker.CheckAll, hlist, loop_val]

theorem bucket_exclusive (v : model.UpdateInfo) :
    (goesToFailed v = true ∧ goesToAvailable v = false ∧ goesToUpToDate v = false) ∨
    (goesToFailed v = false ∧ goesToAvailable v = true ∧ goesToUpToDate v = false) ∨
    (goesToFailed v = false ∧ goesToAvailable v = false ∧ goesToUpToDate v = true) := by
  cases hE : v.Error <;> cases hU : v.IsUpToDate <;>
    simp [goesToFailed, goesToAvailable, goesToUpToDate, hE, hU]

theorem filter_lengths (l : List model.UpdateInfo) :
    (l.filter goesToAvailable).length + (l.filter goesToFailed).length +
      (l.filter goesToUpToDate).length = l.length := by
  induction l with
  | nil => rfl
  | cons v rest ih =>
    rcases bucket_exclusive v with ⟨h1, h2, h3⟩ | ⟨h1, h2, h3⟩ | ⟨h1, h2, h3⟩ <;>
      simp [List.filter_cons, h1, h2, h3] <;> omega

theorem filter_counts (l : List model.UpdateInfo) (v : model.UpdateInfo) :
    (l.filter goesToAvailable).count v + (l.filter goesToFailed).count v +
      (l.filter goesToUpToDate).count v = l.count v := by
  induction l with
  | nil => rfl
  | cons u rest ih =>
    rcases bucket_exclusive u with ⟨h1, h2, h3⟩ | ⟨h1, h2, h3⟩ | ⟨h1, h2, h3⟩ <;>
      simp [List.filter_cons, h1, h2, h3, List.count_cons] <;> omega

end docker

/-! ## The checking engine and the dispatcher -/

namespace docker

/-- C1: when `ListContainers` succeeds, whatever the registered strategies answer,
`CheckAll` returns a report whose `Total` is the number of listed containers and whose
three buckets have lengths that add up to `Total`. -/
theorem checkAll_total_eq_bucket_sum {W : Type} (c : Checker W) (w w1 : W)
    (containers : List model.Container)
    (hlist : c.client.ListContainers w = (.ok containers, w1)) :
    ∃ report, (c.CheckAll w).val = .ok report ∧
      report.Total = containers.length ∧
      report.Available.length + report.Failed.length + report.UpToDate.length =
        report.Total := by
  refine ⟨_, checkAll_ok c w w1 containers hlist, rfl, ?_⟩
  simp only [filter_lengths, verdicts_length]

theorem checkAll_total_eq_bucket_sum_witness :
    Example.checker.client.ListContainers 0 = (.ok Example.containers, 1) ∧
    ∃ report, (Example.checker.CheckAll 0).val = .ok report ∧
      report.Total = 5 ∧
      report.Available.length + report.Failed.length + report.UpToDate.length =
        report.Total :=
  ⟨rfl, checkAll_total_eq_bucket_sum Example.checker 0 1 Example.containers rfl⟩

/-- C2: when `ListContainers` succeeds, the buckets of the report of `CheckAll` are
the verdicts of dispatching the listed containers in order, one per container, split by
the precedence: `Failed` holds exactly the verdicts carrying an error (up to date or
not), `Available` those without error that are not up to date, `UpToDate` the others.
Every verdict lands in exactly one bucket: the three conditions exclude each other, one
of them holds, and each verdict occurs in the three buckets together as often as among
the verdicts. -/
theorem checkAll_buckets_by_precedence {W : Type} (c : Checker W) (w w1 : W)
    (containers : List model.Container)
    (hlist : c.client.ListContainers w = (.ok containers, w1)) :
    ∃ report, (c.CheckAll w).val = .ok report ∧
      (c.verdicts containers w1).length = containers.length ∧
      report.Failed = (c.verdicts containers w1).filter (fun v => v.Error.isSome) ∧
      report.Available =
        (c.verdicts containers w1).filter (fun v => v.Error.isNone && !v.IsUpToDate) ∧
      report.UpToDate =
        (c.verdicts containers w1).filter (fun v => v.Error.isNone && v.IsUpToDate) ∧
      (∀ v, report.Failed.count v + report.Available.count v + report.UpToDate.count v =
        (c.verdicts containers w1).count v) ∧
      (∀ v ∈ report.Failed, v ∉ report.Available ∧ v ∉ report.UpToDate) ∧
      (∀ v ∈ report.Available, v ∉ report.Failed ∧ v ∉ report.UpToDate) ∧
      (∀ v ∈ report.UpToDate, v ∉ report.Failed ∧ v ∉ report.Available) := by
  refine ⟨_, checkAll_ok c w w1 containers hlist, verdicts_length c containers w1, rfl, rfl,
    rfl, ?_, ?_, ?_, ?_⟩
  · intro v
    have h := filter_counts (c.verdicts containers w1) v
    simp only at h ⊢
    omega
  all_goals
    intro v hv
    simp only [List.mem_filter] at hv ⊢
    rcases bucket_exclusive v with ⟨h1, h2, h3⟩ | ⟨h1, h2, h3⟩ | ⟨h1, h2, h3⟩ <;>
      simp_all

theorem checkAll_buckets_by_precedence_witness :
    Example.checker.client.ListContainers 0 = (.ok Example.containers, 1) ∧
    ∃ report, (Example.checker.CheckAll 0).val = .ok report ∧
      (Example.checker.verdicts Example.containers 1).length = 5 ∧
      report.Failed.map (fun v => v.Container) = [Example.ghost, Example.priv] ∧
      report.Available.map (fun v => v.Container) = [Example.nginx] ∧
      report.UpToDate.map (fun v => v.Container) = [Example.redis, Example.dangling] := by
  obtain ⟨report, h, hlen, hF, hA, hU, -⟩ :=
    checkAll_buckets_by_precedence Example.checker 0 1 Example.containers rfl
  refine ⟨rfl, report, h, hlen, ?_, ?_, ?_⟩
  · rw [hF]; decide
  · rw [hA]; decide
  · rw [hU]; decide

theorem checkContainerFrom_first_match {W : Type} (pre : List (CheckStrategy W))
    (s : CheckStrategy W) (post : List (CheckStrategy W)) (container : model.Container) (w : W)
    (hpre : ∀ t ∈ pre, t.CanHandle container = false) (hs : s.CanHandle container = true) :
    ∀ idx : Nat,
      (Checker.checkContainerFrom (pre ++ s :: post) idx container w).val =
          (s.Check container w).val ∧
      (Checker.checkContainerFrom (pre ++ s :: post) idx container w).world =
          (s.Check container w).world ∧
      (Checker.checkContainerFrom (pre ++ s :: post) idx container w).calls =
          (List.range pre.length).map (fun i => Call.CanHandle (idx + i) container) ++
            Call.CanHandle (idx + pre.length) container ::
            Call.Check (idx + pre.length) container :: (s.Check container w).calls := by
  induction pre with
  | nil => intro idx; simp [Checker.checkContainerFrom, hs]
  | cons t rest ih =>
    intro idx
    have ht : t.CanHandle container = false := hpre t (List.mem_cons_self _ _)
    obtain ⟨h1, h2, h3⟩ := ih (fun u hu => hpre u (List.mem_cons_of_mem _ hu)) (idx + 1)
    refine ⟨?_, ?_, ?_⟩
    · simpa [Checker.checkContainerFrom, ht] using h1
    · simpa [Checker.checkContainerFrom, ht] using h2
    · have e1 : ∀ i, idx + 1 + i = idx + (i + 1) := fun i => by omega
      simp [Checker.checkContainerFrom, ht, List.range_succ_eq_map, Function.comp_def, h3, e1]

theorem checkContainerFrom_no_match {W : Type} (strategies : List (CheckStrategy W))
    (container : model.Container) (w : W)
    (hnone : ∀ t ∈ strategies, t.CanHandle container = false) :
    ∀ idx : Nat,
      (Checker.checkContainerFrom strategies idx container w).val =
          .ok { Container := container, CurrentVersion := "", LatestVersion := "",
                IsUpToDate := true, Error := none } ∧
      (Checker.checkContainerFrom strategies idx container w).world = w ∧
      (Checker.checkContainerFrom strategies idx container w).calls =
          (List.range strategies.length).map (fun i => Call.CanHandle (idx + i) container) := by
  induction strategies with
  | nil => intro idx; simp [Checker.checkContainerFrom]
  | cons t rest ih =>
    intro idx
    have ht : t.CanHandle container = false := hnone t (List.mem_cons_self _ _)
    obtain ⟨h1, h2, h3⟩ := ih (fun u hu => hnone u (List.mem_cons_of_mem _ hu)) (idx + 1)
    refine ⟨?_, ?_, ?_⟩
    · simpa [Checker.checkContainerFrom, ht] using h1
    · simpa [Checker.checkContainerFrom, ht] using h2
    · have e1 : ∀ i, idx + 1 + i = idx + (i + 1) := fun i => by omega
      simp [Checker.checkContainerFrom, ht, List.range_succ_eq_map, Function.comp_def, h3, e1]

theorem registerStrategy_foldl {W : Type} (ss : List (CheckStrategy W)) :
    ∀ c : Checker W,
      (ss.foldl Checker.RegisterStrategy c).strategies = c.strategies ++ ss := by
  induction ss with
  | nil => intro c; simp
  | cons s rest ih => intro c; simp [List.foldl_cons, ih, Checker.RegisterStrategy]

/-- C3: strategies registered one after the other by `RegisterStrategy` are held in
that order.  `checkContainer` asks `CanHandle` of the strategies in that order up to the
first that answers true, returns what `Check` of that strategy returns, and calls `Check`
of no other strategy; when no strategy answers true (also when there is none) it returns,
without a Go error and without touching the world, the verdict for the same container
with `IsUpToDate = true` and no error. -/
theorem checkContainer_first_match_or_default {W : Type} (c : Checker W)
    (container : model.Container) (w : W) :
    (∀ (client : Client W) (ss : List (CheckStrategy W)),
      (ss.foldl Checker.RegisterStrategy { client := client, strategies := [] }).strategies
        = ss) ∧
    (∀ pre s post, c.strategies = pre ++ s :: post →
      (∀ t ∈ pre, t.CanHandle container = false) → s.CanHandle container = true →
      (c.checkContainer container w).val = (s.Check container w).val ∧
      (c.checkContainer container w).world = (s.Check container w).world ∧
      (c.checkContainer container w).calls =
        (List.range pre.length).map (fun i => Call.CanHandle i container) ++
          Call.CanHandle pre.length container :: Call.Check pre.length container ::
            (s.Check container w).calls) ∧
    ((∀ t ∈ c.strategies, t.CanHandle container = false) →
      (c.checkContainer container w).val =
        .ok { Container := container, CurrentVersion := "", LatestVersion := "",
              IsUpToDate := true, Error := none } ∧
      (c.checkContainer container w).world = w ∧
      (c.checkContainer container w).calls =
        (List.range c.strategies.length).map (fun i => Call.CanHandle i container)) := by
  refine ⟨fun client ss => by simp [registerStrategy_foldl], ?_, ?_⟩
  · intro pre s post hc hpre hs
    have h := checkContainerFrom_first_match pre s post container w hpre hs 0
    simpa [Checker.checkContainer, hc] using h
  · intro hnone
    have h := checkContainerFrom_no_match c.strategies container w hnone 0
    simpa [Checker.checkContainer] using h

theorem checkContainer_first_match_or_default_witness :
    ((Example.checker.RegisterStrategy Example.idle).RegisterStrategy Example.eager).strategies =
        [(NewRegistryStrategy Example.dockerClient).toCheckStrategy Example.lib] ++
          Example.idle :: [Example.eager] ∧
    (({ client := Example.runtime, strategies := [Example.idle, Example.eager, Example.idle] } :
        Checker Nat).checkContainer Example.redis 7).val =
      .ok { Container := Example.redis, CurrentVersion := "7", LatestVersion := "8",
            IsUpToDate := false, Error := none } ∧
    (({ client := Example.runtime, strategies := [Example.idle, Example.eager, Example.idle] } :
        Checker Nat).checkContainer Example.redis 7).calls =
      [Call.CanHandle 0 Example.redis, Call.CanHandle 1 Example.redis,
        Call.Check 1 Example.redis] ∧
    (({ client := Example.runtime, strategies := [Example.idle, Example.eager, Example.idle] } :
        Checker Nat).checkContainer Example.nginx 7).val =
      .ok { Container := Example.nginx, CurrentVersion := "", LatestVersion := "",
            IsUpToDate := true, Error := none } ∧
    (({ client := Example.runtime, strategies := [Example.idle, Example.eager, Example.idle] } :
        Checker Nat).checkContainer Example.nginx 7).world = 7 := by
  have hred := (checkContainer_first_match_or_default
    ({ client := Example.runtime, strategies := [Example.idle, Example.eager, Example.idle] } :
      Checker Nat) Example.redis 7).2.1 [Example.idle] Example.eager [Example.idle] rfl
    (by decide) (by decide)
  have hng := (checkContainer_first_match_or_default
    ({ client := Example.runtime, strategies := [Example.idle, Example.eager, Example.idle] } :
      Checker Nat) Example.nginx 7).2.2 (by decide)
  exact ⟨rfl, hred.1, hred.2.2, hng.1, hng.2.1⟩

/-! ## The registry strategy: which containers it claims -/

theorem containsChars_iff_occurs (sub : List Char) :
    ∀ l : List Char, strings.containsChars sub l = true ↔ sub <:+: l := by
  intro l
  induction l with
  | nil => simp [strings.containsChars, List.isEmpty_iff]
  | cons c cs ih =>
    simp only [strings.containsChars, Bool.or_eq_true, ih, List.isPrefixOf_iff_prefix,
      List.infix_cons_iff]

theorem contains_iff_occurs (s substr : String) :
    strings.Contains s substr = true ↔ substr.data <:+: s.data :=
  containsChars_iff_occurs substr.data s.data

theorem hasPrefix_iff_leads (s lead : String) :
    strings.HasPrefix s lead = true ↔ lead.data <+: s.data := by
  simp [strings.HasPrefix, List.isPrefixOf_iff_prefix]

theorem canHandle_false_iff (container : model.Container) :
    RegistryStrategy.CanHandle container = false ↔
      ("<none>".data <:+: container.ImageName.data ∨
        "localhost/".data <+: container.ImageName.data ∨
        "local/".data <+: container.ImageName.data ∨
        "build".data <:+: container.ImageName.data) := by
  rw [← contains_iff_occurs, ← contains_iff_occurs, ← hasPrefix_iff_leads,
    ← hasPrefix_iff_leads]
  unfold RegistryStrategy.CanHandle
  cases strings.Contains container.ImageName "<none>" <;>
    cases strings.HasPrefix container.ImageName "localhost/" <;>
    cases strings.HasPrefix container.ImageName "local/" <;>
    cases strings.Contains container.ImageName "build" <;> simp

/-- C4: `RegistryStrategy.CanHandle` answers false exactly when the characters of the
image name contain `<none>`, or start with `localhost/` or with `local/`, or contain
`build`; it answers true for every other image name; and two containers with the same
image name get the same answer. -/
theorem registryStrategy_canHandle_iff (container : model.Container) :
    (RegistryStrategy.CanHandle container = false ↔
      ("<none>".data <:+: container.ImageName.data ∨
        "localhost/".data <+: container.ImageName.data ∨
        "local/".data <+: container.ImageName.data ∨
        "build".data <:+: container.ImageName.data)) ∧
    (RegistryStrategy.CanHandle container = true ↔
      ¬ ("<none>".data <:+: container.ImageName.data ∨
        "localhost/".data <+: container.ImageName.data ∨
        "local/".data <+: container.ImageName.data ∨
        "build".data <:+: container.ImageName.data)) ∧
    (∀ other : model.Container, other.ImageName = container.ImageName →
      RegistryStrategy.CanHandle other = RegistryStrategy.CanHandle container) := by
  have key := canHandle_false_iff container
  refine ⟨key, ?_, ?_⟩
  · rw [← key]; simp
  · intro other h
    simp [RegistryStrategy.CanHandle, h]

theorem registryStrategy_canHandle_iff_witness :
    RegistryStrategy.CanHandle Example.dangling = false ∧
    RegistryStrategy.CanHandle Example.redis = true ∧
    RegistryStrategy.CanHandle { Example.redis with ImageName := "local/tool" } = false ∧
    RegistryStrategy.CanHandle { Example.redis with ImageName := "mybuilder:2" } = false ∧
    RegistryStrategy.CanHandle { Example.nginx with ImageName := "redis:7" } =
      RegistryStrategy.CanHandle Example.redis :=
  ⟨(registryStrategy_canHandle_iff Example.dangling).1.2 (Or.inl (by decide)),
   (registryStrategy_canHandle_iff Example.redis).2.1.2 (by decide),
   (registryStrategy_canHandle_iff { Example.redis with ImageName := "local/tool" }).1.2
     (Or.inr (Or.inr (Or.inl (by decide)))),
   (registryStrategy_canHandle_iff { Example.redis with ImageName := "mybuilder:2" }).1.2
     (Or.inr (Or.inr (Or.inr (by decide)))),
   (registryStrategy_canHandle_iff Example.redis).2.2
     { Example.nginx with ImageName := "redis:7" } rfl⟩

/-! ## The registry strategy: inspection failures -/

theorem checkAll_files_verdict {W : Type} (c : Checker W) (w w0 : W)
    (pre post : List model.Container) (container : model.Container)
    (hlist : c.client.ListContainers w = (.ok (pre ++ container :: post), w0)) :
    ∃ report, (c.CheckAll w).val = .ok report ∧
      ∀ v, Checker.CheckAll.verdict container
          (c.checkContainer container (c.worldAfter pre w0)).val = v →
        (goesToFailed v = true →
          v ∈ report.Failed ∧ v ∉ report.Available ∧ v ∉ report.UpToDate) ∧
        (goesToAvailable v = true →
          v ∈ report.Available ∧ v ∉ report.Failed ∧ v ∉ report.UpToDate) ∧
        (goesToUpToDate v = true →
          v ∈ report.UpToDate ∧ v ∉ report.Failed ∧ v ∉ report.Available) := by
  refine ⟨_, checkAll_ok c w w0 _ hlist, ?_⟩
  intro v hv
  have hmem : v ∈ c.verdicts (pre ++ container :: post) w0 := by
    rw [verdicts_append]
    simp [Checker.verdicts, hv]
  simp only [List.mem_filter]
  rcases bucket_exclusive v with ⟨h1, h2, h3⟩ | ⟨h1, h2, h3⟩ | ⟨h1, h2, h3⟩ <;>
    simp [h1, h2, h3, hmem]

theorem newChecker_checkContainer_claimed {W : Type} (lib : StdLib W) (dc : DockerClient W)
    (client : Client W) (container : model.Container) (w : W)
    (hcan : RegistryStrategy.CanHandle container = true) :
    ((NewChecker lib dc client).checkContainer container w).val =
        ((NewRegistryStrategy dc).Check lib container w).val ∧
    ((NewChecker lib dc client).checkContainer container w).world =
        ((NewRegistryStrategy dc).Check lib container w).world ∧
    ((NewChecker lib dc client).checkContainer container w).calls =
        Call.CanHandle 0 container :: Call.Check 0 container ::
          ((NewRegistryStrategy dc).Check lib container w).calls := by
  simp [NewChecker, Checker.RegisterStrategy, Checker.checkContainer,
    Checker.checkContainerFrom, RegistryStrategy.toCheckStrategy, hcan]

theorem newChecker_checkContainer_unclaimed {W : Type} (lib : StdLib W) (dc : DockerClient W)
    (client : Client W) (container : model.Container) (w : W)
    (hcan : RegistryStrategy.CanHandle container = false) :
    ((NewChecker lib dc client).checkContainer container w).val =
        .ok { Container := container, CurrentVersion := "", LatestVersion := "",
              IsUpToDate := true, Error := none } ∧
    ((NewChecker lib dc client).checkContainer container w).world = w ∧
    ((NewChecker lib dc client).checkContainer container w).calls =
        [Call.CanHandle 0 container] := by
  simp [NewChecker, Checker.RegisterStrategy, Checker.checkContainer,
    Checker.checkContainerFrom, RegistryStrategy.toCheckStrategy, hcan]

theorem check_local_failure {W : Type} (lib : StdLib W) (dc : DockerClient W)
    (container : model.Container) (w : W) (err : GoError)
    (hlocal : (dc.cli.ImageInspectWithRaw container.ImageID w).1 = .error err) :
    ((NewRegistryStrategy dc).Check lib container w).val =
        .ok { Container := container, CurrentVersion := "unknown", LatestVersion := "unknown",
              IsUpToDate := true, Error := some err } ∧
    ((NewRegistryStrategy dc).Check lib container w).world =
        (dc.cli.ImageInspectWithRaw container.ImageID w).2 ∧
    ((NewRegistryStrategy dc).Check lib container w).calls =
        [Call.GetImageInfo container.ImageID] := by
  simp [RegistryStrategy.Check, NewRegistryStrategy, DockerClient.GetImageInfo, hlocal]

theorem check_remote_failure {W : Type} (lib : StdLib W) (dc : DockerClient W)
    (container : model.Container) (w : W) (img : types.ImageInspect) (err : GoError)
    (hlocal : (dc.cli.ImageInspectWithRaw container.ImageID w).1 = .ok img)
    (hremote : (dc.cli.DistributionInspect container.ImageName
      (dc.cli.ImageInspectWithRaw container.ImageID w).2).1 = .error err) :
    ((NewRegistryStrategy dc).Check lib container w).val =
        .ok { Container := container
              CurrentVersion :=
                match img.RepoTags with
                | [] => "unknown"
                | first :: _ => RegistryStrategy.extractTag first
              LatestVersion := "unknown", IsUpToDate := true, Error := some err } ∧
    ((NewRegistryStrategy dc).Check lib container w).world =
        (dc.cli.DistributionInspect container.ImageName
          (dc.cli.ImageInspectWithRaw container.ImageID w).2).2 ∧
    ((NewRegistryStrategy dc).Check lib container w).calls =
        [Call.GetImageInfo container.ImageID, Call.DistributionInspect container.ImageName] := by
  cases hT : img.RepoTags <;>
    simp [RegistryStrategy.Check, NewRegistryStrategy, DockerClient.GetImageInfo,
      DockerClient.DistributionInspect, hlocal, hremote, hT]

/-- C5: when `RegistryStrategy.Check` runs in a world where the local image inspection
fails, or where it succeeds and the remote distribution inspection fails, it returns a
verdict for the container that carries exactly that error, with `IsUpToDate` still true
and `LatestVersion` still `unknown`; the only calls made are the inspections (no HTTP
GET for the tag list); and when the default checker dispatches the container in that
world during `CheckAll`, the verdict is in `Failed` and in neither `Available` nor
`UpToDate`. -/
theorem registry_inspect_failure_goes_to_failed {W : Type} (lib : StdLib W)
    (dc : DockerClient W) (container : model.Container) (w1 : W) (err : GoError)
    (hfail : (dc.cli.ImageInspectWithRaw container.ImageID w1).1 = .error err ∨
      ((∃ img, (dc.cli.ImageInspectWithRaw container.ImageID w1).1 = .ok img) ∧
        (dc.cli.DistributionInspect container.ImageName
          (dc.cli.ImageInspectWithRaw container.ImageID w1).2).1 = .error err)) :
    ∃ v, ((NewRegistryStrategy dc).Check lib container w1).val = .ok v ∧
      v.Container = container ∧ v.Error = some err ∧ v.IsUpToDate = true ∧
      v.LatestVersion = "unknown" ∧
      (((NewRegistryStrategy dc).Check lib container w1).calls =
          [Call.GetImageInfo container.ImageID] ∨
        ((NewRegistryStrategy dc).Check lib container w1).calls =
          [Call.GetImageInfo container.ImageID,
            Call.DistributionInspect container.ImageName]) ∧
      (∀ url, Call.HTTPGet url ∉ ((NewRegistryStrategy dc).Check lib container w1).calls) ∧
      (∀ (client : Client W) (w w0 : W) (pre post : List model.Container),
        client.ListContainers w = (.ok (pre ++ container :: post), w0) →
        (NewChecker lib dc client).worldAfter pre w0 = w1 →
        RegistryStrategy.CanHandle container = true →
        ∃ report, ((NewChecker lib dc client).CheckAll w).val = .ok report ∧
          v ∈ report.Failed ∧ v ∉ report.Available ∧ v ∉ report.UpToDate) := by
  have main : ∃ v, ((NewRegistryStrategy dc).Check lib container w1).val = .ok v ∧
      v.Container = container ∧ v.Error = some err ∧ v.IsUpToDate = true ∧
      v.LatestVersion = "unknown" ∧
      (((NewRegistryStrategy dc).Check lib container w1).calls =
          [Call.GetImageInfo container.ImageID] ∨
        ((NewRegistryStrategy dc).Check lib container w1).calls =
          [Call.GetImageInfo container.ImageID,
            Call.DistributionInspect container.ImageName]) := by
    rcases hfail with hlocal | ⟨⟨img, hlocal⟩, hremote⟩
    · obtain ⟨hv, -, hc⟩ := check_local_failure lib dc container w1 err hlocal
      exact ⟨_, hv, rfl, rfl, rfl, rfl, Or.inl hc⟩
    · obtain ⟨hv, -, hc⟩ := check_remote_failure lib dc container w1 img err hlocal hremote
      exact ⟨_, hv, rfl, rfl, rfl, rfl, Or.inr hc⟩
  obtain ⟨v, hv, hC, hE, hU, hL, hcalls⟩ := main
  refine ⟨v, hv, hC, hE, hU, hL, hcalls, ?_, ?_⟩
  · intro url hmem
    rcases hcalls with h | h <;> rw [h] at hmem <;> simp at hmem
  · intro client w w0 pre post hlist hw hcan
    obtain ⟨report, hrep, hplace⟩ :=
      checkAll_files_verdict (NewChecker lib dc client) w w0 pre post container hlist
    refine ⟨report, hrep, ?_⟩
    have hdisp := (newChecker_checkContainer_claimed lib dc client container w1 hcan).1
    refine (hplace v ?_).1 ?_
    · rw [hw, hdisp, hv]; rfl
    · simp [goesToFailed, hE]

theorem registry_inspect_failure_goes_to_failed_witness :
    (∃ v, ((NewRegistryStrategy Example.dockerClient).Check Example.lib Example.ghost 6).val =
        .ok v ∧
      v.Error = some ⟨"No such image"⟩ ∧ v.IsUpToDate = true ∧
      ∃ report, (Example.checker.CheckAll 0).val = .ok report ∧
        v ∈ report.Failed ∧ v ∉ report.Available ∧ v ∉ report.UpToDate) ∧
    (∃ v, ((NewRegistryStrategy Example.dockerClient).Check Example.lib Example.priv 7).val =
        .ok v ∧
      v.Error = some ⟨"unauthorized"⟩ ∧ v.IsUpToDate = true ∧
      ∃ report, (Example.checker.CheckAll 0).val = .ok report ∧
        v ∈ report.Failed ∧ v ∉ report.Available ∧ v ∉ report.UpToDate) := by
  constructor
  · obtain ⟨v, hv, -, hE, hU, -, -, -, hall⟩ :=
      registry_inspect_failure_goes_to_failed Example.lib Example.dockerClient Example.ghost 6
        ⟨"No such image"⟩ (Or.inl rfl)
    exact ⟨v, hv, hE, hU,
      hall Example.runtime 0 1 [Example.redis, Example.nginx] [Example.priv, Example.dangling]
        rfl (by decide) (by decide)⟩
  · obtain ⟨v, hv, -, hE, hU, -, -, -, hall⟩ :=
      registry_inspect_failure_goes_to_failed Example.lib Example.dockerClient Example.priv 7
        ⟨"unauthorized"⟩ (Or.inr ⟨⟨_, rfl⟩, rfl⟩)
    exact ⟨v, hv, hE, hU,
      hall Example.runtime 0 1 [Example.redis, Example.nginx, Example.ghost]
        [Example.dangling] rfl (by decide) (by decide)⟩

/-! ## The registry strategy: digest comparison -/

theorem check_both_inspections_ok {W : Type} (lib : StdLib W) (dc : DockerClient W)
    (container : model.Container) (w : W) (img : types.ImageInspect)
    (remote : registry.DistributionInspect)
    (hlocal : (dc.cli.ImageInspectWithRaw container.ImageID w).1 = .ok img)
    (hremote : (dc.cli.DistributionInspect container.ImageName
      (dc.cli.ImageInspectWithRaw container.ImageID w).2).1 = .ok remote) :
    ((NewRegistryStrategy dc).Check lib container w).val =
      .ok { Container := container
            CurrentVersion :=
              match img.RepoTags with
              | [] => "unknown"
              | first :: _ => RegistryStrategy.extractTag first
            LatestVersion :=
              if img.ID = remote.Descriptor.Digest then "unknown"
              else
                match (RegistryStrategy.getLatestVersionFromDockerHub lib container.ImageName
                    (dc.cli.DistributionInspect container.ImageName
                      (dc.cli.ImageInspectWithRaw container.ImageID w).2).2).val with
                | .error _ => RegistryStrategy.extractTag container.ImageName
                | .ok latestVersion => latestVersion
            IsUpToDate := decide (img.ID = remote.Descriptor.Digest)
            Error := none } := by
  by_cases hd : img.ID = remote.Descriptor.Digest <;> cases hT : img.RepoTags <;>
    simp [RegistryStrategy.Check, NewRegistryStrategy, DockerClient.GetImageInfo,
      DockerClient.DistributionInspect, hlocal, hremote, hT, hd]

/-- C6: when `RegistryStrategy.Check` runs in a world where the local inspection and
then the remote distribution inspection both succeed, then for every standard library
(so whatever the tag-list lookup does) the verdict has no error and `IsUpToDate` is true
exactly when the local image id equals the remote digest; and when the default checker
dispatches the container in that world during `CheckAll`, the verdict is in `UpToDate`
only if the two are equal and in `Available` only if they differ. -/
theorem registry_digest_comparison {W : Type} (lib : StdLib W) (dc : DockerClient W)
    (container : model.Container) (w1 : W) (img : types.ImageInspect)
    (remote : registry.DistributionInspect)
    (hlocal : (dc.cli.ImageInspectWithRaw container.ImageID w1).1 = .ok img)
    (hremote : (dc.cli.DistributionInspect container.ImageName
      (dc.cli.ImageInspectWithRaw container.ImageID w1).2).1 = .ok remote) :
    ∃ v, ((NewRegistryStrategy dc).Check lib container w1).val = .ok v ∧
      v.Container = container ∧ v.Error = none ∧
      (v.IsUpToDate = true ↔ img.ID = remote.Descriptor.Digest) ∧
      (∀ (client : Client W) (w w0 : W) (pre post : List model.Container),
        client.ListContainers w = (.ok (pre ++ container :: post), w0) →
        (NewChecker lib dc client).worldAfter pre w0 = w1 →
        RegistryStrategy.CanHandle container = true →
        ∃ report, ((NewChecker lib dc client).CheckAll w).val = .ok report ∧
          (img.ID = remote.Descriptor.Digest →
            v ∈ report.UpToDate ∧ v ∉ report.Failed ∧ v ∉ report.Available) ∧
          (img.ID ≠ remote.Descriptor.Digest →
            v ∈ report.Available ∧ v ∉ report.Failed ∧ v ∉ report.UpToDate)) := by
  obtain ⟨v, hv, hC, hE, hU⟩ :
      ∃ v, ((NewRegistryStrategy dc).Check lib container w1).val = .ok v ∧
        v.Container = container ∧ v.Error = none ∧
        v.IsUpToDate = decide (img.ID = remote.Descriptor.Digest) :=
    ⟨_, check_both_inspections_ok lib dc container w1 img remote hlocal hremote, rfl, rfl, rfl⟩
  refine ⟨v, hv, hC, hE, by simp [hU], ?_⟩
  intro client w w0 pre post hlist hw hcan
  obtain ⟨report, hrep, hplace⟩ :=
    checkAll_files_verdict (NewChecker lib dc client) w w0 pre post container hlist
  have hdisp := (newChecker_checkContainer_claimed lib dc client container w1 hcan).1
  have hp := hplace v (by rw [hw, hdisp, hv]; rfl)
  refine ⟨report, hrep, ?_, ?_⟩
  · intro heq
    exact hp.2.2 (by simp [goesToUpToDate, hE, hU, heq])
  · intro hne
    exact hp.2.1 (by simp [goesToAvailable, hE, hU, hne])

theorem registry_digest_comparison_witness :
    (∃ v, ((NewRegistryStrategy Example.dockerClient).Check Example.lib Example.redis 1).val =
        .ok v ∧ v.Error = none ∧ v.IsUpToDate = true ∧
      ∃ report, (Example.checker.CheckAll 0).val = .ok report ∧ v ∈ report.UpToDate) ∧
    (∃ v, ((NewRegistryStrategy Example.dockerClient).Check Example.lib Example.nginx 3).val =
        .ok v ∧ v.Error = none ∧ v.IsUpToDate = false ∧
      ∃ report, (Example.checker.CheckAll 0).val = .ok report ∧ v ∈ report.Available) := by
  constructor
  · obtain ⟨v, hv, -, hE, hU, hall⟩ :=
      registry_digest_comparison Example.lib Example.dockerClient Example.redis 1
        { ID := "sha256:AAA", RepoTags := ["redis:7"] }
        { Descriptor := { Digest := "sha256:AAA" } } rfl rfl
    obtain ⟨report, hrep, heq, -⟩ := hall Example.runtime 0 1 []
      [Example.nginx, Example.ghost, Example.priv, Example.dangling] rfl rfl (by decide)
    exact ⟨v, hv, hE, hU.2 rfl, report, hrep, (heq rfl).1⟩
  · obtain ⟨v, hv, -, hE, hU, hall⟩ :=
      registry_digest_comparison Example.lib Example.dockerClient Example.nginx 3
        { ID := "sha256:BBB", RepoTags := ["redis:7"] }
        { Descriptor := { Digest := "sha256:AAA" } } rfl rfl
    obtain ⟨report, hrep, -, hne⟩ := hall Example.runtime 0 1 [Example.redis]
      [Example.ghost, Example.priv, Example.dangling] rfl (by decide) (by decide)
    have hU2 : v.IsUpToDate = false := by
      cases h : v.IsUpToDate
      · rfl
      · exact absurd (hU.1 h) (by decide)
    exact ⟨v, hv, hE, hU2, report, hrep, (hne (by decide)).1⟩

/-! ## The tag lookup -/

theorem less_false_iff (a b : DockerHubTag) :
    RegistryStrategy.getLatestVersionFromDockerHub.less b a = false ↔
      b.LastUpdated ≤ a.LastUpdated := by
  simp [RegistryStrategy.getLatestVersionFromDockerHub.less, time.After]

theorem less_ordering : LessOrdering RegistryStrategy.getLatestVersionFromDockerHub.less := by
  refine ⟨?_, ?_, ?_⟩
  · intro a
    simp [RegistryStrategy.getLatestVersionFromDockerHub.less, time.After]
  · intro a b c
    simp only [RegistryStrategy.getLatestVersionFromDockerHub.less, time.After,
      decide_eq_true_eq]
    omega
  · intro a b c
    simp only [RegistryStrategy.getLatestVersionFromDockerHub.less, time.After,
      decide_eq_false_iff_not]
    omega

theorem stableSort_contract : SortSliceContract stableSort := by
  intro less hless l
  obtain ⟨hirr, htrans, hneg⟩ := hless
  haveI : IsTotal DockerHubTag (fun a b => less b a = false) :=
    ⟨fun a b => by
      cases hba : less b a
      · exact Or.inl rfl
      · cases hab : less a b
        · exact Or.inr rfl
        · have := htrans a b a hab hba
          rw [hirr a] at this
          exact absurd this (by decide)⟩
  haveI : IsTrans DockerHubTag (fun a b => less b a = false) :=
    ⟨fun a b c hab hbc => hneg c b a hbc hab⟩
  exact ⟨List.perm_insertionSort _ l, List.sorted_insertionSort _ l⟩

theorem swapFirstWithMiddle_perm (l : List DockerHubTag) :
    (Example.swapFirstWithMiddle l).Perm l := by
  cases l with
  | nil => exact List.Perm.refl _
  | cons x xs =>
    simp only [Example.swapFirstWithMiddle]
    split
    · exact List.Perm.refl _
    · rename_i p after hdrop
      have hxs : xs = xs.take ((xs.length + 1) / 2 - 1) ++ p :: after := by
        rw [← hdrop, List.take_append_drop]
      generalize xs.take ((xs.length + 1) / 2 - 1) = front at hxs
      rw [hxs]
      have h1 : (p :: (front ++ x :: after)).Perm (p :: x :: (front ++ after)) :=
        List.Perm.cons p List.perm_middle
      have h2 : (x :: (front ++ p :: after)).Perm (x :: p :: (front ++ after)) :=
        List.Perm.cons x List.perm_middle
      exact h1.trans ((List.Perm.swap x p _).trans h2.symm)

theorem pivotFirstSort_contract : SortSliceContract Example.pivotFirstSort := by
  intro less hless l
  obtain ⟨hperm, hsorted⟩ := stableSort_contract less hless (Example.swapFirstWithMiddle l)
  exact ⟨hperm.trans (swapFirstWithMiddle_perm l), hsorted⟩

theorem sorted_eq_of_distinct
    (sort1 sort2 : (DockerHubTag → DockerHubTag → Bool) → List DockerHubTag → List DockerHubTag)
    (h1 : SortSliceContract sort1) (h2 : SortSliceContract sort2) (l : List DockerHubTag)
    (hdistinct : l.Pairwise (fun a b => a.LastUpdated ≠ b.LastUpdated)) :
    sort1 RegistryStrategy.getLatestVersionFromDockerHub.less l =
      sort2 RegistryStrategy.getLatestVersionFromDockerHub.less l := by
  obtain ⟨p1, s1⟩ := h1 _ less_ordering l
  obtain ⟨p2, s2⟩ := h2 _ less_ordering l
  have strict : ∀ l2 : List DockerHubTag, l2.Perm l →
      l2.Pairwise (fun a b =>
        RegistryStrategy.getLatestVersionFromDockerHub.less b a = false) →
      l2.Pairwise (fun a b => b.LastUpdated < a.LastUpdated) := by
    intro l2 hp hs
    have hd : l2.Pairwise (fun a b => a.LastUpdated ≠ b.LastUpdated) :=
      (hp.pairwise_iff (fun h => Ne.symm h)).2 hdistinct
    refine (hs.and hd).imp ?_
    intro a b ⟨hle, hne⟩
    rw [less_false_iff] at hle
    omega
  haveI : IsAntisymm DockerHubTag (fun a b => b.LastUpdated < a.LastUpdated) :=
    ⟨fun a b hab hba => absurd hab (by omega)⟩
  exact List.eq_of_perm_of_sorted (p1.trans p2.symm) (strict _ p1 s1) (strict _ p2 s2)

theorem scan_first_accepted :
    ∀ l : List DockerHubTag,
      (∃ t ∈ l, RegistryStrategy.getLatestVersionFromDockerHub.accepts t = true) →
      ∃ pre t post, l = pre ++ t :: post ∧
        (∀ x ∈ pre, RegistryStrategy.getLatestVersionFromDockerHub.accepts x = false) ∧
        RegistryStrategy.getLatestVersionFromDockerHub.accepts t = true ∧
        RegistryStrategy.getLatestVersionFromDockerHub.scan l = t.Name := by
  intro l
  induction l with
  | nil => rintro ⟨t, ht, -⟩; cases ht
  | cons x rest ih =>
    intro hex
    cases hx : RegistryStrategy.getLatestVersionFromDockerHub.accepts x with
    | true =>
      exact ⟨[], x, rest, rfl, by simp, hx,
        by simp [RegistryStrategy.getLatestVersionFromDockerHub.scan, hx]⟩
    | false =>
      obtain ⟨t, ht, hacc⟩ := hex
      have htrest : t ∈ rest := by
        rcases List.mem_cons.1 ht with h | h
        · rw [h, hx] at hacc; cases hacc
        · exact h
      obtain ⟨pre, u, post, hl, hpre, hu, hscan⟩ := ih ⟨t, htrest, hacc⟩
      refine ⟨x :: pre, u, post, by rw [hl]; rfl, ?_, hu, ?_⟩
      · intro y hy
        rcases List.mem_cons.1 hy with h | h
        · rw [h]; exact hx
        · exact hpre y h
      · simp [RegistryStrategy.getLatestVersionFromDockerHub.scan, hx, hscan]

theorem scan_none_accepted :
    ∀ l : List DockerHubTag,
      (∀ t ∈ l, RegistryStrategy.getLatestVersionFromDockerHub.accepts t = false) →
      RegistryStrategy.getLatestVersionFromDockerHub.scan l = "latest" := by
  intro l
  induction l with
  | nil => intro _; rfl
  | cons x rest ih =>
    intro h
    have hx := h x (List.mem_cons_self _ _)
    simp [RegistryStrategy.getLatestVersionFromDockerHub.scan, hx,
      ih (fun t ht => h t (List.mem_cons_of_mem _ ht))]

theorem accepts_iff (t : DockerHubTag) :
    RegistryStrategy.getLatestVersionFromDockerHub.accepts t = true ↔
      t.Name ≠ "latest" ∧ ¬ "rc".data <:+: t.Name.data ∧ ¬ "beta".data <:+: t.Name.data ∧
        ¬ "alpha".data <:+: t.Name.data := by
  rw [← contains_iff_occurs t.Name "rc", ← contains_iff_occurs t.Name "beta",
    ← contains_iff_occurs t.Name "alpha"]
  simp only [RegistryStrategy.getLatestVersionFromDockerHub.accepts, Bool.and_eq_true,
    bne_iff_ne, Bool.not_eq_true', Bool.not_eq_true, and_assoc]

theorem splitChars_ne_nil (sep : Char) : ∀ l : List Char, strings.splitChars sep l ≠ [] := by
  intro l
  cases l with
  | nil => simp [strings.splitChars]
  | cons c cs =>
    simp only [strings.splitChars]
    split
    · simp
    · split <;> simp

theorem extractRepository_ne_empty (imageName : String) :
    RegistryStrategy.extractRepository imageName ≠ "" := by
  unfold RegistryStrategy.extractRepository
  simp only [strings.Split]
  cases h : strings.splitChars ':' imageName.data with
  | nil => exact absurd h (splitChars_ne_nil _ _)
  | cons p ps =>
    simp only [List.map_cons]
    split
    · intro hempty
      have hlen := congrArg String.length hempty
      simp only [String.length_append] at hlen
      have h8 : "library/".length = 8 := by decide
      have h0 : "".length = 0 := by decide
      omega
    · rename_i hc
      intro hempty
      rw [hempty] at hc
      revert hc
      decide

theorem getLatestVersion_of_listing {W : Type} (lib : StdLib W) (imageName : String) (w : W)
    (resp : http.Response) (response : DockerHubResponse)
    (hget : (lib.httpGet (RegistryStrategy.getLatestVersionFromDockerHub.url
      (RegistryStrategy.extractRepository imageName)) w).1 = .ok resp)
    (hstatus : resp.StatusCode = 200)
    (hdecode : lib.jsonDecode resp.Body = .ok response) :
    (RegistryStrategy.getLatestVersionFromDockerHub lib imageName w).val =
        .ok (RegistryStrategy.getLatestVersionFromDockerHub.scan
          (lib.sortSlice RegistryStrategy.getLatestVersionFromDockerHub.less
            response.Results)) ∧
    (RegistryStrategy.getLatestVersionFromDockerHub lib imageName w).world =
        (lib.httpGet (RegistryStrategy.getLatestVersionFromDockerHub.url
          (RegistryStrategy.extractRepository imageName)) w).2 ∧
    (RegistryStrategy.getLatestVersionFromDockerHub lib imageName w).calls =
        [Call.HTTPGet (RegistryStrategy.getLatestVersionFromDockerHub.url
          (RegistryStrategy.extractRepository imageName))] := by
  unfold RegistryStrategy.getLatestVersionFromDockerHub
  simp only [extractRepository_ne_empty, if_false]
  rcases hpair : lib.httpGet (RegistryStrategy.getLatestVersionFromDockerHub.url
      (RegistryStrategy.extractRepository imageName)) w with ⟨r, w1⟩
  rw [hpair] at hget
  simp only at hget
  subst hget
  simp [hstatus, http.StatusOK, hdecode]

/-! ## The registry strategy: a stale image -/

/-- C7, as stated, fails, in two ways.  In the example world the image of `nginx`
differs from the registry's, the tag listing succeeds and returns one qualifying tag, and
the tag is named `unknown`; the verdict of `Check` then has `LatestVersion = unknown`.
And the image of `builder`, named `mybuilder:2`, also differs from the registry's (both
inspections would succeed), but the registry strategy does not claim it, and `CheckAll`
of the default checker files it in `UpToDate` and leaves `Available` empty. -/
theorem registry_stale_claim_counterexample :
    (Example.dockerClient.cli.ImageInspectWithRaw Example.nginx.ImageID 0).1 =
        .ok { ID := "sha256:BBB", RepoTags := ["redis:7"] } ∧
    (Example.dockerClient.cli.DistributionInspect Example.nginx.ImageName 1).1 =
        .ok { Descriptor := { Digest := "sha256:AAA" } } ∧
    "sha256:BBB" ≠ "sha256:AAA" ∧
    SortSliceContract Example.unknownLib.sortSlice ∧
    (Example.unknownLib.httpGet (RegistryStrategy.getLatestVersionFromDockerHub.url
        (RegistryStrategy.extractRepository Example.nginx.ImageName)) 2).1 =
      .ok { StatusCode := 200, Body := "" } ∧
    Example.unknownLib.jsonDecode "" = .ok { Results := [⟨"unknown", 40⟩] } ∧
    RegistryStrategy.getLatestVersionFromDockerHub.accepts ⟨"unknown", 40⟩ = true ∧
    ((NewRegistryStrategy Example.dockerClient).Check Example.unknownLib Example.nginx 0).val =
      .ok { Container := Example.nginx, CurrentVersion := "7", LatestVersion := "unknown",
            IsUpToDate := false, Error := none } ∧
    Example.builderRuntime.ListContainers 0 = (.ok [Example.builder], 1) ∧
    (Example.dockerClient.cli.ImageInspectWithRaw Example.builder.ImageID 1).1 =
        .ok { ID := "sha256:BBB", RepoTags := ["redis:7"] } ∧
    (Example.dockerClient.cli.DistributionInspect Example.builder.ImageName 2).1 =
        .ok { Descriptor := { Digest := "sha256:AAA" } } ∧
    RegistryStrategy.CanHandle Example.builder = false ∧
    ((NewChecker Example.lib Example.dockerClient Example.builderRuntime).CheckAll 0).val =
      .ok { Hostname := "", Timestamp := 0, Total := 1, Available := [], Failed := []
            UpToDate := [{ Container := Example.builder, CurrentVersion := ""
                           LatestVersion := "", IsUpToDate := true, Error := none }] } :=
  ⟨rfl, rfl, by decide, stableSort_contract, rfl, rfl, by decide, rfl, rfl, rfl, rfl,
    by decide, rfl⟩

/-- C7, amended: when `RegistryStrategy.Check` runs in a world where both inspections
succeed and the local image id differs from the remote digest, the verdict has no error
and is not up to date, and, for a container the registry strategy claims (`CanHandle`
true), the default checker's `CheckAll` puts it in `Available` and in no other bucket.
If moreover the tag listing succeeds (HTTP 200, body decoded) and lists at least one
qualifying tag, and `sort.Slice` meets its contract, then `LatestVersion` is the name of
the resolved tag, the first qualifying tag of the sorted list; it differs from `unknown`
provided no qualifying listed tag is itself named `unknown`.  A container the registry
strategy does not claim (`CanHandle` false) is not checked, whatever its digests: the
default checker dispatches it to the verdict with `IsUpToDate = true` and no error, and
`CheckAll` puts that verdict in `UpToDate` and in no other bucket. -/
theorem registry_stale_goes_to_available {W : Type} (lib : StdLib W) (dc : DockerClient W)
    (container : model.Container) (w1 : W) (img : types.ImageInspect)
    (remote : registry.DistributionInspect)
    (hlocal : (dc.cli.ImageInspectWithRaw container.ImageID w1).1 = .ok img)
    (hremote : (dc.cli.DistributionInspect container.ImageName
      (dc.cli.ImageInspectWithRaw container.ImageID w1).2).1 = .ok remote)
    (hdiff : img.ID ≠ remote.Descriptor.Digest) :
    ∃ v, ((NewRegistryStrategy dc).Check lib container w1).val = .ok v ∧
      v.Container = container ∧ v.Error = none ∧ v.IsUpToDate = false ∧
      (∀ (client : Client W) (w w0 : W) (pre post : List model.Container),
        client.ListContainers w = (.ok (pre ++ container :: post), w0) →
        (NewChecker lib dc client).worldAfter pre w0 = w1 →
        RegistryStrategy.CanHandle container = true →
        ∃ report, ((NewChecker lib dc client).CheckAll w).val = .ok report ∧
          v ∈ report.Available ∧ v ∉ report.Failed ∧ v ∉ report.UpToDate) ∧
      (∀ (resp : http.Response) (response : DockerHubResponse),
        SortSliceContract lib.sortSlice →
        (lib.httpGet (RegistryStrategy.getLatestVersionFromDockerHub.url
          (RegistryStrategy.extractRepository container.ImageName))
          (dc.cli.DistributionInspect container.ImageName
            (dc.cli.ImageInspectWithRaw container.ImageID w1).2).2).1 = .ok resp →
        resp.StatusCode = 200 →
        lib.jsonDecode resp.Body = .ok response →
        (∃ t ∈ response.Results,
          RegistryStrategy.getLatestVersionFromDockerHub.accepts t = true) →
        ∃ pre t post,
          lib.sortSlice RegistryStrategy.getLatestVersionFromDockerHub.less response.Results =
            pre ++ t :: post ∧
          (∀ x ∈ pre, RegistryStrategy.getLatestVersionFromDockerHub.accepts x = false) ∧
          RegistryStrategy.getLatestVersionFromDockerHub.accepts t = true ∧
          t ∈ response.Results ∧
          v.LatestVersion = t.Name ∧
          ((∀ x ∈ response.Results,
              RegistryStrategy.getLatestVersionFromDockerHub.accepts x = true →
              x.Name ≠ "unknown") →
            v.LatestVersion ≠ "unknown")) ∧
      (∀ (client : Client W) (w w0 : W) (pre post : List model.Container),
        client.ListContainers w = (.ok (pre ++ container :: post), w0) →
        RegistryStrategy.CanHandle container = false →
        ((NewChecker lib dc client).checkContainer container
            ((NewChecker lib dc client).worldAfter pre w0)).val =
          .ok { Container := container, CurrentVersion := "", LatestVersion := "",
                IsUpToDate := true, Error := none } ∧
        ∃ report, ((NewChecker lib dc client).CheckAll w).val = .ok report ∧
          ({ Container := container, CurrentVersion := "", LatestVersion := "",
             IsUpToDate := true, Error := none } : model.UpdateInfo) ∈ report.UpToDate ∧
          ({ Container := container, CurrentVersion := "", LatestVersion := "",
             IsUpToDate := true, Error := none } : model.UpdateInfo) ∉ report.Available ∧
          ({ Container := container, CurrentVersion := "", LatestVersion := "",
             IsUpToDate := true, Error := none } : model.UpdateInfo) ∉ report.Failed) := by
  obtain ⟨v, hv, hC, hE, hU, hL⟩ :
      ∃ v, ((NewRegistryStrategy dc).Check lib container w1).val = .ok v ∧
        v.Container = container ∧ v.Error = none ∧ v.IsUpToDate = false ∧
        v.LatestVersion =
          match (RegistryStrategy.getLatestVersionFromDockerHub lib container.ImageName
              (dc.cli.DistributionInspect container.ImageName
                (dc.cli.ImageInspectWithRaw container.ImageID w1).2).2).val with
          | .error _ => RegistryStrategy.extractTag container.ImageName
          | .ok latestVersion => latestVersion :=
    ⟨_, check_both_inspections_ok lib dc container w1 img remote hlocal hremote, rfl, rfl,
      by simp [hdiff], by simp [hdiff]⟩
  refine ⟨v, hv, hC, hE, hU, ?_, ?_, ?_⟩
  · intro client w w0 pre post hlist hw hcan
    obtain ⟨report, hrep, hplace⟩ :=
      checkAll_files_verdict (NewChecker lib dc client) w w0 pre post container hlist
    have hdisp := (newChecker_checkContainer_claimed lib dc client container w1 hcan).1
    exact ⟨report, hrep,
      (hplace v (by rw [hw, hdisp, hv]; rfl)).2.1 (by simp [goesToAvailable, hE, hU])⟩
  rotate_left
  · intro client w w0 pre post hlist hcan
    obtain ⟨report, hrep, hplace⟩ :=
      checkAll_files_verdict (NewChecker lib dc client) w w0 pre post container hlist
    have hdisp := (newChecker_checkContainer_unclaimed lib dc client container
      ((NewChecker lib dc client).worldAfter pre w0) hcan).1
    obtain ⟨h1, h2, h3⟩ :=
      (hplace { Container := container, CurrentVersion := "", LatestVersion := "",
                IsUpToDate := true, Error := none } (by rw [hdisp]; rfl)).2.2 rfl
    exact ⟨hdisp, report, hrep, h1, h3, h2⟩
  · intro resp response hsort hget hstatus hdecode hex
    obtain ⟨hperm, -⟩ := hsort _ less_ordering response.Results
    have hval := (getLatestVersion_of_listing lib container.ImageName _ resp response hget
      hstatus hdecode).1
    obtain ⟨t0, ht0, hacc0⟩ := hex
    obtain ⟨pre, t, post, hsplit, hpre, hacc, hscan⟩ :=
      scan_first_accepted _ ⟨t0, (hperm.mem_iff).2 ht0, hacc0⟩
    have htmem : t ∈ response.Results :=
      (hperm.mem_iff).1 (by rw [hsplit]; simp)
    have hname : v.LatestVersion = t.Name := by rw [hL, hval, hscan]
    exact ⟨pre, t, post, hsplit, hpre, hacc, htmem, hname,
      fun hno => by rw [hname]; exact hno t htmem hacc⟩

theorem registry_stale_goes_to_available_witness :
    (∃ v, ((NewRegistryStrategy Example.dockerClient).Check Example.lib Example.nginx 3).val =
        .ok v ∧ v.IsUpToDate = false ∧ v.LatestVersion ≠ "unknown" ∧
      ∃ report, (Example.checker.CheckAll 0).val = .ok report ∧ v ∈ report.Available) ∧
    (∃ report,
      ((NewChecker Example.lib Example.dockerClient Example.builderRuntime).CheckAll 0).val =
        .ok report ∧
      ({ Container := Example.builder, CurrentVersion := "", LatestVersion := "",
         IsUpToDate := true, Error := none } : model.UpdateInfo) ∈ report.UpToDate ∧
      ({ Container := Example.builder, CurrentVersion := "", LatestVersion := "",
         IsUpToDate := true, Error := none } : model.UpdateInfo) ∉ report.Available) := by
  constructor
  · obtain ⟨v, hv, -, -, hU, hall, hlabel, -⟩ :=
      registry_stale_goes_to_available Example.lib Example.dockerClient Example.nginx 3
        { ID := "sha256:BBB", RepoTags := ["redis:7"] }
        { Descriptor := { Digest := "sha256:AAA" } } rfl rfl (by decide)
    obtain ⟨report, hrep, hmem, -⟩ := hall Example.runtime 0 1 [Example.redis]
      [Example.ghost, Example.priv, Example.dangling] rfl (by decide) (by decide)
    obtain ⟨-, -, -, -, -, -, -, -, hne⟩ :=
      hlabel { StatusCode := 200, Body := "" } { Results := Example.tags } stableSort_contract
        rfl rfl rfl ⟨⟨"2.1.0", 20⟩, by decide, by decide⟩
    exact ⟨v, hv, hU, hne (by decide), report, hrep, hmem⟩
  · obtain ⟨-, -, -, -, -, -, -, hunclaimed⟩ :=
      registry_stale_goes_to_available Example.lib Example.dockerClient Example.builder 1
        { ID := "sha256:BBB", RepoTags := ["redis:7"] }
        { Descriptor := { Digest := "sha256:AAA" } } rfl rfl (by decide)
    obtain ⟨-, report, hrep, hmem, hnot, -⟩ :=
      hunclaimed Example.builderRuntime 0 1 [] [] rfl (by decide)
    exact ⟨report, hrep, hmem, hnot⟩

/-! ## The default checker and dangling images -/

/-- C8: the checker built by `NewChecker` holds the registry strategy and nothing else.
For a container whose image name contains `<none>`, its `checkContainer` returns, in any
world, the verdict with `IsUpToDate = true` and no error, leaves the world as it was and
makes no call besides asking `CanHandle` (no local inspection, no remote inspection, no
tag listing); and `CheckAll` puts that verdict in `UpToDate` and in no other bucket. -/
theorem none_image_goes_to_upToDate {W : Type} (lib : StdLib W) (dc : DockerClient W)
    (client : Client W) (container : model.Container)
    (hnone : "<none>".data <:+: container.ImageName.data) :
    (NewChecker lib dc client).strategies = [(NewRegistryStrategy dc).toCheckStrategy lib] ∧
    (∀ w1 : W,
      ((NewChecker lib dc client).checkContainer container w1).val =
        .ok { Container := container, CurrentVersion := "", LatestVersion := "",
              IsUpToDate := true, Error := none } ∧
      ((NewChecker lib dc client).checkContainer container w1).world = w1 ∧
      ((NewChecker lib dc client).checkContainer container w1).calls =
        [Call.CanHandle 0 container]) ∧
    (∀ (w w0 : W) (pre post : List model.Container),
      client.ListContainers w = (.ok (pre ++ container :: post), w0) →
      ∃ report, ((NewChecker lib dc client).CheckAll w).val = .ok report ∧
        ({ Container := container, CurrentVersion := "", LatestVersion := "",
           IsUpToDate := true, Error := none } : model.UpdateInfo) ∈ report.UpToDate ∧
        ({ Container := container, CurrentVersion := "", LatestVersion := "",
           IsUpToDate := true, Error := none } : model.UpdateInfo) ∉ report.Failed ∧
        ({ Container := container, CurrentVersion := "", LatestVersion := "",
           IsUpToDate := true, Error := none } : model.UpdateInfo) ∉ report.Available) := by
  have hcan : RegistryStrategy.CanHandle container = false :=
    (canHandle_false_iff container).2 (Or.inl hnone)
  refine ⟨rfl, fun w1 => newChecker_checkContainer_unclaimed lib dc client container w1 hcan,
    ?_⟩
  intro w w0 pre post hlist
  obtain ⟨report, hrep, hplace⟩ :=
    checkAll_files_verdict (NewChecker lib dc client) w w0 pre post container hlist
  have hdisp := (newChecker_checkContainer_unclaimed lib dc client container
    ((NewChecker lib dc client).worldAfter pre w0) hcan).1
  exact ⟨report, hrep, (hplace _ (by rw [hdisp]; rfl)).2.2 rfl⟩

theorem none_image_goes_to_upToDate_witness :
    (Example.checker.checkContainer Example.dangling 9).calls =
        [Call.CanHandle 0 Example.dangling] ∧
    ∃ report, (Example.checker.CheckAll 0).val = .ok report ∧
      ({ Container := Example.dangling, CurrentVersion := "", LatestVersion := "",
         IsUpToDate := true, Error := none } : model.UpdateInfo) ∈ report.UpToDate := by
  obtain ⟨-, hcheck, hall⟩ :=
    none_image_goes_to_upToDate Example.lib Example.dockerClient Example.runtime
      Example.dangling (by decide)
  obtain ⟨report, hrep, hmem, -⟩ := hall 0 1
    [Example.redis, Example.nginx, Example.ghost, Example.priv] [] rfl
  exact ⟨(hcheck 9).2.2, report, hrep, hmem⟩

/-! ## The tag lookup: which tag is selected -/

theorem sortSlice_eq_of_strictly_sorted
    (sortSlice : (DockerHubTag → DockerHubTag → Bool) → List DockerHubTag → List DockerHubTag)
    (hsort : SortSliceContract sortSlice) (l l2 : List DockerHubTag) (hperm : l2.Perm l)
    (hstrict : l2.Pairwise (fun a b => b.LastUpdated < a.LastUpdated)) :
    sortSlice RegistryStrategy.getLatestVersionFromDockerHub.less l = l2 := by
  obtain ⟨p1, s1⟩ := hsort _ less_ordering l
  have hd2 : l2.Pairwise (fun a b => a.LastUpdated ≠ b.LastUpdated) :=
    hstrict.imp (fun h => by omega)
  have hd1 : (sortSlice RegistryStrategy.getLatestVersionFromDockerHub.less l).Pairwise
      (fun a b => a.LastUpdated ≠ b.LastUpdated) :=
    ((p1.trans hperm.symm).pairwise_iff (fun h => Ne.symm h)).2 hd2
  have hs1 : (sortSlice RegistryStrategy.getLatestVersionFromDockerHub.less l).Pairwise
      (fun a b => b.LastUpdated < a.LastUpdated) := by
    refine (s1.and hd1).imp ?_
    intro a b ⟨hle, hne⟩
    rw [less_false_iff] at hle
    omega
  haveI : IsAntisymm DockerHubTag (fun a b => b.LastUpdated < a.LastUpdated) :=
    ⟨fun a b hab hba => absurd hab (by omega)⟩
  exact List.eq_of_perm_of_sorted (p1.trans hperm.symm) hs1 hstrict

theorem selected_is_most_recent_accepted
    (sortSlice : (DockerHubTag → DockerHubTag → Bool) → List DockerHubTag → List DockerHubTag)
    (hsort : SortSliceContract sortSlice) (l : List DockerHubTag)
    (hex : ∃ t ∈ l, RegistryStrategy.getLatestVersionFromDockerHub.accepts t = true) :
    ∃ s ∈ l, RegistryStrategy.getLatestVersionFromDockerHub.accepts s = true ∧
      RegistryStrategy.getLatestVersionFromDockerHub.scan
        (sortSlice RegistryStrategy.getLatestVersionFromDockerHub.less l) = s.Name ∧
      ∀ x ∈ l, RegistryStrategy.getLatestVersionFromDockerHub.accepts x = true →
        x.LastUpdated ≤ s.LastUpdated := by
  obtain ⟨hperm, hsorted⟩ := hsort _ less_ordering l
  obtain ⟨t0, ht0, hacc0⟩ := hex
  obtain ⟨pre, s, post, hsplit, hpre, hacc, hscan⟩ :=
    scan_first_accepted _ ⟨t0, (hperm.mem_iff).2 ht0, hacc0⟩
  refine ⟨s, (hperm.mem_iff).1 (by rw [hsplit]; simp), hacc, hscan, ?_⟩
  intro x hx hxacc
  have hxs : x ∈ pre ++ s :: post := by rw [← hsplit]; exact (hperm.mem_iff).2 hx
  rw [hsplit, List.pairwise_append] at hsorted
  obtain ⟨-, htail, -⟩ := hsorted
  rcases List.mem_append.1 hxs with h | h
  · rw [hpre x h] at hxacc; cases hxacc
  · rcases List.mem_cons.1 h with h | h
    · rw [h]
    · exact (less_false_iff s x).1 ((List.pairwise_cons.1 htail).1 x h)

theorem orderedInsert_filter_instant (k : Int) (a : DockerHubTag) :
    ∀ s : List DockerHubTag,
      (List.orderedInsert
        (fun a b => RegistryStrategy.getLatestVersionFromDockerHub.less b a = false) a s).filter
          (fun x => decide (x.LastUpdated = k)) =
        (a :: s).filter (fun x => decide (x.LastUpdated = k)) := by
  intro s
  induction s with
  | nil => simp
  | cons b rest ih =>
    by_cases hr : RegistryStrategy.getLatestVersionFromDockerHub.less b a = false
    · simp [List.orderedInsert, hr]
    · have hlt : a.LastUpdated < b.LastUpdated := by
        rw [less_false_iff] at hr
        omega
      have hins : List.orderedInsert
          (fun a b => RegistryStrategy.getLatestVersionFromDockerHub.less b a = false) a
            (b :: rest) =
          b :: List.orderedInsert
            (fun a b => RegistryStrategy.getLatestVersionFromDockerHub.less b a = false) a
              rest := by
        simp [List.orderedInsert, hr]
      rw [hins, List.filter_cons, ih]
      by_cases ha : a.LastUpdated = k
      · have hb : ¬ b.LastUpdated = k := by omega
        simp [List.filter_cons, ha, hb]
      · simp [List.filter_cons, ha]

theorem stableSort_keeps_ties (k : Int) :
    ∀ l : List DockerHubTag,
      (stableSort RegistryStrategy.getLatestVersionFromDockerHub.less l).filter
          (fun x => decide (x.LastUpdated = k)) =
        l.filter (fun x => decide (x.LastUpdated = k)) := by
  intro l
  induction l with
  | nil => rfl
  | cons a rest ih =>
    have h := orderedInsert_filter_instant k a
      (stableSort RegistryStrategy.getLatestVersionFromDockerHub.less rest)
    simp only [stableSort, List.insertionSort] at h ih ⊢
    rw [h, List.filter_cons, List.filter_cons, ih]

/-- C9: when the tag listing succeeds (HTTP 200, body decoded) and `sort.Slice` meets its
contract, the tags are scanned in an order that is a rearrangement of the response with
no tag before a more recent one, a tag qualifies exactly when its name is not `latest`
and contains none of `rc`, `beta`, `alpha`, and, if some listed tag qualifies,
`getLatestVersionFromDockerHub` returns the name of the first qualifying tag in that
order.  For the response `2.1.0`, `2.2.0-rc1`, `2.0.0` with `2.2.0-rc1` the most recent
and `2.0.0` the oldest, it returns `2.1.0`. -/
theorem latestVersion_first_accepted_most_recent {W : Type} (lib : StdLib W)
    (hsort : SortSliceContract lib.sortSlice) (imageName : String) (w : W)
    (resp : http.Response) (response : DockerHubResponse)
    (hget : (lib.httpGet (RegistryStrategy.getLatestVersionFromDockerHub.url
      (RegistryStrategy.extractRepository imageName)) w).1 = .ok resp)
    (hstatus : resp.StatusCode = 200)
    (hdecode : lib.jsonDecode resp.Body = .ok response) :
    (lib.sortSlice RegistryStrategy.getLatestVersionFromDockerHub.less response.Results).Perm
        response.Results ∧
    (lib.sortSlice RegistryStrategy.getLatestVersionFromDockerHub.less
        response.Results).Pairwise (fun a b => b.LastUpdated ≤ a.LastUpdated) ∧
    (∀ t : DockerHubTag,
      RegistryStrategy.getLatestVersionFromDockerHub.accepts t = true ↔
        t.Name ≠ "latest" ∧ ¬ "rc".data <:+: t.Name.data ∧ ¬ "beta".data <:+: t.Name.data ∧
          ¬ "alpha".data <:+: t.Name.data) ∧
    ((∃ t ∈ response.Results,
        RegistryStrategy.getLatestVersionFromDockerHub.accepts t = true) →
      ∃ pre t post,
        lib.sortSlice RegistryStrategy.getLatestVersionFromDockerHub.less response.Results =
          pre ++ t :: post ∧
        (∀ x ∈ pre, RegistryStrategy.getLatestVersionFromDockerHub.accepts x = false) ∧
        RegistryStrategy.getLatestVersionFromDockerHub.accepts t = true ∧
        (RegistryStrategy.getLatestVersionFromDockerHub lib imageName w).val = .ok t.Name) ∧
    (∀ t1 t2 t3 : Int, t3 < t1 → t1 < t2 →
      response.Results = [⟨"2.1.0", t1⟩, ⟨"2.2.0-rc1", t2⟩, ⟨"2.0.0", t3⟩] →
      (RegistryStrategy.getLatestVersionFromDockerHub lib imageName w).val = .ok "2.1.0") := by
  obtain ⟨hperm, hsorted⟩ := hsort _ less_ordering response.Results
  have hval := (getLatestVersion_of_listing lib imageName w resp response hget hstatus
    hdecode).1
  refine ⟨hperm, hsorted.imp (fun h => (less_false_iff _ _).1 h), accepts_iff, ?_, ?_⟩
  · rintro ⟨t0, ht0, hacc0⟩
    obtain ⟨pre, t, post, hsplit, hpre, hacc, hscan⟩ :=
      scan_first_accepted _ ⟨t0, (hperm.mem_iff).2 ht0, hacc0⟩
    exact ⟨pre, t, post, hsplit, hpre, hacc, by rw [hval, hscan]⟩
  · intro t1 t2 t3 h31 h12 hres
    have hs : lib.sortSlice RegistryStrategy.getLatestVersionFromDockerHub.less
        response.Results = [⟨"2.2.0-rc1", t2⟩, ⟨"2.1.0", t1⟩, ⟨"2.0.0", t3⟩] := by
      apply sortSlice_eq_of_strictly_sorted lib.sortSlice hsort
      · rw [hres]; exact List.Perm.swap _ _ _
      · simp only [List.pairwise_cons, List.mem_cons, List.mem_singleton, List.not_mem_nil,
          forall_eq_or_imp, forall_eq, List.Pairwise.nil, and_true, IsEmpty.forall_iff,
          implies_true]
        omega
    rw [hval, hs]
    have e1 : RegistryStrategy.getLatestVersionFromDockerHub.accepts ⟨"2.2.0-rc1", t2⟩
        = false :=
      (by decide : RegistryStrategy.getLatestVersionFromDockerHub.accepts ⟨"2.2.0-rc1", 0⟩
        = false)
    have e2 : RegistryStrategy.getLatestVersionFromDockerHub.accepts ⟨"2.1.0", t1⟩
        = true :=
      (by decide : RegistryStrategy.getLatestVersionFromDockerHub.accepts ⟨"2.1.0", 0⟩
        = true)
    simp [RegistryStrategy.getLatestVersionFromDockerHub.scan, e1, e2]

theorem latestVersion_first_accepted_most_recent_witness :
    (Example.lib.httpGet (RegistryStrategy.getLatestVersionFromDockerHub.url
      (RegistryStrategy.extractRepository "nginx:1.25")) 5).1 =
        .ok { StatusCode := 200, Body := "" } ∧
    Example.lib.jsonDecode "" = .ok { Results := Example.tags } ∧
    (RegistryStrategy.getLatestVersionFromDockerHub Example.lib "nginx:1.25" 5).val =
      .ok "2.1.0" :=
  ⟨rfl, rfl,
    (latestVersion_first_accepted_most_recent Example.lib stableSort_contract "nginx:1.25" 5
      { StatusCode := 200, Body := "" } { Results := Example.tags } rfl rfl rfl).2.2.2.2
      20 30 10 (by decide) (by decide) rfl⟩

/-- C10, as stated, fails: `pivotFirstSort` meets the contract of `sort.Slice`, the
thirteen tags of `tiedTags` all qualify, all but the older `1.4` are tied for most recent
and `1.0` is the first of them in the response; the sorted order starts with `1.6`, puts
`1.0` after `1.5`, and `getLatestVersionFromDockerHub` returns `1.6`. -/
theorem tie_order_not_kept_counterexample :
    SortSliceContract Example.tiedLib.sortSlice ∧
    (Example.tiedLib.httpGet (RegistryStrategy.getLatestVersionFromDockerHub.url
      (RegistryStrategy.extractRepository "nginx:1.25")) 0).1 =
        .ok { StatusCode := 200, Body := "" } ∧
    Example.tiedLib.jsonDecode "" = .ok { Results := Example.tiedTags } ∧
    Example.tiedTags.length ≤ 100 ∧
    (∀ t ∈ Example.tiedTags,
      RegistryStrategy.getLatestVersionFromDockerHub.accepts t = true ∧ t.LastUpdated ≤ 5) ∧
    Example.tiedTags.head? = some ⟨"1.0", 5⟩ ∧
    (Example.tiedLib.sortSlice RegistryStrategy.getLatestVersionFromDockerHub.less
        Example.tiedTags).map (fun t => t.Name) =
      ["1.6", "1.1", "1.2", "1.3", "1.5", "1.0", "1.7", "1.8", "1.9", "1.10", "1.11", "1.12",
        "1.4"] ∧
    (RegistryStrategy.getLatestVersionFromDockerHub Example.tiedLib "nginx:1.25" 0).val =
      .ok "1.6" :=
  ⟨pivotFirstSort_contract, rfl, rfl, by decide, by decide, rfl, by decide, rfl⟩

/-- C10, amended: when the tag listing succeeds and `sort.Slice` meets its contract, the
order in which the tags are scanned is a rearrangement of the response in which no tag
comes before a more recent one; the order among tags with equal timestamps is not
determined.  The stable sort keeps, for every instant, the tags last updated at that
instant in response order, and when all timestamps of the response differ the scanned
order is the stable one.  If some listed tag qualifies, the name returned is that of a
qualifying listed tag at least as recent as every qualifying listed tag. -/
theorem tag_order_descending_ties_unspecified {W : Type} (lib : StdLib W)
    (hsort : SortSliceContract lib.sortSlice) (imageName : String) (w : W)
    (resp : http.Response) (response : DockerHubResponse)
    (hget : (lib.httpGet (RegistryStrategy.getLatestVersionFromDockerHub.url
      (RegistryStrategy.extractRepository imageName)) w).1 = .ok resp)
    (hstatus : resp.StatusCode = 200)
    (hdecode : lib.jsonDecode resp.Body = .ok response) :
    (lib.sortSlice RegistryStrategy.getLatestVersionFromDockerHub.less response.Results).Perm
        response.Results ∧
    (lib.sortSlice RegistryStrategy.getLatestVersionFromDockerHub.less
        response.Results).Pairwise (fun a b => b.LastUpdated ≤ a.LastUpdated) ∧
    (∀ k : Int,
      (stableSort RegistryStrategy.getLatestVersionFromDockerHub.less response.Results).filter
          (fun x => decide (x.LastUpdated = k)) =
        response.Results.filter (fun x => decide (x.LastUpdated = k))) ∧
    (response.Results.Pairwise (fun a b => a.LastUpdated ≠ b.LastUpdated) →
      lib.sortSlice RegistryStrategy.getLatestVersionFromDockerHub.less response.Results =
        stableSort RegistryStrategy.getLatestVersionFromDockerHub.less response.Results) ∧
    ((∃ t ∈ response.Results,
        RegistryStrategy.getLatestVersionFromDockerHub.accepts t = true) →
      ∃ s ∈ response.Results,
        RegistryStrategy.getLatestVersionFromDockerHub.accepts s = true ∧
        (RegistryStrategy.getLatestVersionFromDockerHub lib imageName w).val = .ok s.Name ∧
        ∀ x ∈ response.Results,
          RegistryStrategy.getLatestVersionFromDockerHub.accepts x = true →
          x.LastUpdated ≤ s.LastUpdated) := by
  obtain ⟨hperm, hsorted⟩ := hsort _ less_ordering response.Results
  have hval := (getLatestVersion_of_listing lib imageName w resp response hget hstatus
    hdecode).1
  refine ⟨hperm, hsorted.imp (fun h => (less_false_iff _ _).1 h),
    fun k => stableSort_keeps_ties k response.Results,
    fun hd => sorted_eq_of_distinct lib.sortSlice stableSort hsort stableSort_contract _ hd,
    ?_⟩
  intro hex
  obtain ⟨s, hs, hacc, hscan, hmax⟩ :=
    selected_is_most_recent_accepted lib.sortSlice hsort response.Results hex
  exact ⟨s, hs, hacc, by rw [hval, hscan], hmax⟩

theorem tag_order_descending_ties_unspecified_witness :
    Example.lib.sortSlice RegistryStrategy.getLatestVersionFromDockerHub.less Example.tags =
      [⟨"2.2.0-rc1", 30⟩, ⟨"2.1.0", 20⟩, ⟨"2.0.0", 10⟩] ∧
    ∃ s ∈ Example.tags,
      RegistryStrategy.getLatestVersionFromDockerHub.accepts s = true ∧
      (RegistryStrategy.getLatestVersionFromDockerHub Example.lib "redis:7" 2).val =
        .ok s.Name ∧
      ∀ x ∈ Example.tags,
        RegistryStrategy.getLatestVersionFromDockerHub.accepts x = true →
        x.LastUpdated ≤ s.LastUpdated := by
  obtain ⟨-, -, -, hstable, hsel⟩ :=
    tag_order_descending_ties_unspecified Example.lib stableSort_contract "redis:7" 2
      { StatusCode := 200, Body := "" } { Results := Example.tags } rfl rfl rfl
  exact ⟨(hstable (by decide)).trans (by decide), hsel ⟨⟨"2.1.0", 20⟩, by decide, by decide⟩⟩

/-! ## The registry strategy: the label when no tag is resolved -/

theorem getLatestVersion_of_failure {W : Type} (lib : StdLib W) (imageName : String) (w : W)
    (hfail : (∃ e, (lib.httpGet (RegistryStrategy.getLatestVersionFromDockerHub.url
        (RegistryStrategy.extractRepository imageName)) w).1 = .error e) ∨
      (∃ resp, (lib.httpGet (RegistryStrategy.getLatestVersionFromDockerHub.url
        (RegistryStrategy.extractRepository imageName)) w).1 = .ok resp ∧
        (resp.StatusCode ≠ 200 ∨ ∃ e, lib.jsonDecode resp.Body = .error e))) :
    ∃ e, (RegistryStrategy.getLatestVersionFromDockerHub lib imageName w).val = .error e := by
  unfold RegistryStrategy.getLatestVersionFromDockerHub
  simp only [extractRepository_ne_empty, if_false]
  rcases hpair : lib.httpGet (RegistryStrategy.getLatestVersionFromDockerHub.url
      (RegistryStrategy.extractRepository imageName)) w with ⟨r, w1⟩
  rw [hpair] at hfail
  rcases hfail with ⟨e, he⟩ | ⟨resp, hresp, hbad⟩
  · simp only at he
    subst he
    exact ⟨_, rfl⟩
  · simp only at hresp
    subst hresp
    by_cases hstatus : resp.StatusCode = 200
    · rcases hbad with hne | ⟨e, he⟩
      · exact absurd hstatus hne
      · simp only [hstatus, http.StatusOK, ne_eq, not_true_eq_false, if_false, he]
        exact ⟨_, rfl⟩
    · simp only [http.StatusOK, ne_eq, hstatus, not_false_eq_true, if_true]
      exact ⟨_, rfl⟩

/-- C11, as stated, fails: in the example world the image of `staleRedis`, whose
reference is `redis:7`, differs from the registry's; with a tag listing that succeeds
with an empty result, and with one that lists only `latest` and pre-release tags, the
verdict of `Check` has `LatestVersion = latest`, while the tag of the reference is `7`. -/
theorem latestVersion_no_qualifying_tag_counterexample :
    (Example.dockerClient.cli.ImageInspectWithRaw Example.staleRedis.ImageID 0).1 =
        .ok { ID := "sha256:OLD", RepoTags := ["redis:7"] } ∧
    (Example.dockerClient.cli.DistributionInspect Example.staleRedis.ImageName 1).1 =
        .ok { Descriptor := { Digest := "sha256:AAA" } } ∧
    "sha256:OLD" ≠ "sha256:AAA" ∧
    Example.staleRedis.ImageName = "redis:7" ∧
    RegistryStrategy.extractTag "redis:7" = "7" ∧
    (Example.emptyLib.httpGet (RegistryStrategy.getLatestVersionFromDockerHub.url
        (RegistryStrategy.extractRepository "redis:7")) 2).1 =
      .ok { StatusCode := 200, Body := "" } ∧
    Example.emptyLib.jsonDecode "" = .ok { Results := [] } ∧
    ((NewRegistryStrategy Example.dockerClient).Check Example.emptyLib Example.staleRedis 0).val =
      .ok { Container := Example.staleRedis, CurrentVersion := "7", LatestVersion := "latest",
            IsUpToDate := false, Error := none } ∧
    Example.prereleaseLib.jsonDecode "" =
      .ok { Results := [⟨"latest", 50⟩, ⟨"8.0-rc1", 40⟩, ⟨"8.0-beta2", 30⟩,
                        ⟨"8.0-alpha", 20⟩] } ∧
    (∀ t ∈ [(⟨"latest", 50⟩ : DockerHubTag), ⟨"8.0-rc1", 40⟩, ⟨"8.0-beta2", 30⟩,
        ⟨"8.0-alpha", 20⟩],
      RegistryStrategy.getLatestVersionFromDockerHub.accepts t = false) ∧
    ((NewRegistryStrategy Example.dockerClient).Check Example.prereleaseLib
        Example.staleRedis 0).val =
      .ok { Container := Example.staleRedis, CurrentVersion := "7", LatestVersion := "latest",
            IsUpToDate := false, Error := none } :=
  ⟨rfl, rfl, by decide, rfl, by decide, rfl, rfl, rfl, rfl, by decide, rfl⟩

/-- C11, amended: when `RegistryStrategy.Check` runs in a world where both inspections
succeed and the local image id differs from the remote digest, the verdict has no error
and is not up to date, and its `LatestVersion` is decided by the tag listing.  If the
listing fails (the HTTP GET fails, or answers a status other than 200, or the body does
not decode), `LatestVersion` is `extractTag` of the container's own image reference.  If
the listing succeeds and no listed tag qualifies (the result is empty, or every tag is
`latest` or contains `rc`, `beta` or `alpha`), and `sort.Slice` meets its contract,
`LatestVersion` is the literal `latest`, whatever the reference. -/
theorem registry_stale_label_without_resolved_tag {W : Type} (lib : StdLib W)
    (dc : DockerClient W) (container : model.Container) (w1 : W) (img : types.ImageInspect)
    (remote : registry.DistributionInspect)
    (hlocal : (dc.cli.ImageInspectWithRaw container.ImageID w1).1 = .ok img)
    (hremote : (dc.cli.DistributionInspect container.ImageName
      (dc.cli.ImageInspectWithRaw container.ImageID w1).2).1 = .ok remote)
    (hdiff : img.ID ≠ remote.Descriptor.Digest) :
    ∃ v, ((NewRegistryStrategy dc).Check lib container w1).val = .ok v ∧
      v.Container = container ∧ v.Error = none ∧ v.IsUpToDate = false ∧
      (((∃ e, (lib.httpGet (RegistryStrategy.getLatestVersionFromDockerHub.url
            (RegistryStrategy.extractRepository container.ImageName))
            (dc.cli.DistributionInspect container.ImageName
              (dc.cli.ImageInspectWithRaw container.ImageID w1).2).2).1 = .error e) ∨
        (∃ resp, (lib.httpGet (RegistryStrategy.getLatestVersionFromDockerHub.url
            (RegistryStrategy.extractRepository container.ImageName))
            (dc.cli.DistributionInspect container.ImageName
              (dc.cli.ImageInspectWithRaw container.ImageID w1).2).2).1 = .ok resp ∧
          (resp.StatusCode ≠ 200 ∨ ∃ e, lib.jsonDecode resp.Body = .error e))) →
        v.LatestVersion = RegistryStrategy.extractTag container.ImageName) ∧
      (∀ (resp : http.Response) (response : DockerHubResponse),
        SortSliceContract lib.sortSlice →
        (lib.httpGet (RegistryStrategy.getLatestVersionFromDockerHub.url
          (RegistryStrategy.extractRepository container.ImageName))
          (dc.cli.DistributionInspect container.ImageName
            (dc.cli.ImageInspectWithRaw container.ImageID w1).2).2).1 = .ok resp →
        resp.StatusCode = 200 →
        lib.jsonDecode resp.Body = .ok response →
        (∀ t ∈ response.Results,
          RegistryStrategy.getLatestVersionFromDockerHub.accepts t = false) →
        v.LatestVersion = "latest") := by
  obtain ⟨v, hv, hC, hE, hU, hL⟩ :
      ∃ v, ((NewRegistryStrategy dc).Check lib container w1).val = .ok v ∧
        v.Container = container ∧ v.Error = none ∧ v.IsUpToDate = false ∧
        v.LatestVersion =
          match (RegistryStrategy.getLatestVersionFromDockerHub lib container.ImageName
              (dc.cli.DistributionInspect container.ImageName
                (dc.cli.ImageInspectWithRaw container.ImageID w1).2).2).val with
          | .error _ => RegistryStrategy.extractTag container.ImageName
          | .ok latestVersion => latestVersion :=
    ⟨_, check_both_inspections_ok lib dc container w1 img remote hlocal hremote, rfl, rfl,
      by simp [hdiff], by simp [hdiff]⟩
  refine ⟨v, hv, hC, hE, hU, ?_, ?_⟩
  · intro hfail
    obtain ⟨e, he⟩ := getLatestVersion_of_failure lib container.ImageName _ hfail
    rw [hL, he]
  · intro resp response hsort hget hstatus hdecode hnone
    obtain ⟨hperm, -⟩ := hsort _ less_ordering response.Results
    have hval := (getLatestVersion_of_listing lib container.ImageName _ resp response hget
      hstatus hdecode).1
    have hscan := scan_none_accepted
      (lib.sortSlice RegistryStrategy.getLatestVersionFromDockerHub.less response.Results)
      (fun t ht => hnone t ((hperm.mem_iff).1 ht))
    rw [hL, hval, hscan]

theorem registry_stale_label_without_resolved_tag_witness :
    (∃ v, ((NewRegistryStrategy Example.dockerClient).Check Example.downLib
        Example.staleRedis 0).val = .ok v ∧ v.Error = none ∧ v.LatestVersion = "7") ∧
    (∃ v, ((NewRegistryStrategy Example.dockerClient).Check Example.notFoundLib
        Example.staleRedis 0).val = .ok v ∧ v.Error = none ∧ v.LatestVersion = "7") ∧
    (∃ v, ((NewRegistryStrategy Example.dockerClient).Check Example.emptyLib
        Example.staleRedis 0).val = .ok v ∧ v.Error = none ∧ v.LatestVersion = "latest") := by
  refine ⟨?_, ?_, ?_⟩
  · obtain ⟨v, hv, -, hE, -, hfail, -⟩ :=
      registry_stale_label_without_resolved_tag Example.downLib Example.dockerClient
        Example.staleRedis 0 { ID := "sha256:OLD", RepoTags := ["redis:7"] }
        { Descriptor := { Digest := "sha256:AAA" } } rfl rfl (by decide)
    exact ⟨v, hv, hE, (hfail (Or.inl ⟨_, rfl⟩)).trans (by decide)⟩
  · obtain ⟨v, hv, -, hE, -, hfail, -⟩ :=
      registry_stale_label_without_resolved_tag Example.notFoundLib Example.dockerClient
        Example.staleRedis 0 { ID := "sha256:OLD", RepoTags := ["redis:7"] }
        { Descriptor := { Digest := "sha256:AAA" } } rfl rfl (by decide)
    exact ⟨v, hv, hE,
      (hfail (Or.inr ⟨{ StatusCode := 404, Body := "" }, rfl, Or.inl (by decide)⟩)).trans
        (by decide)⟩
  · obtain ⟨v, hv, -, hE, -, -, hnone⟩ :=
      registry_stale_label_without_resolved_tag Example.emptyLib Example.dockerClient
        Example.staleRedis 0 { ID := "sha256:OLD", RepoTags := ["redis:7"] }
        { Descriptor := { Digest := "sha256:AAA" } } rfl rfl (by decide)
    exact ⟨v, hv, hE,
      hnone { StatusCode := 200, Body := "" } { Results := [] } stableSort_contract rfl rfl
        rfl (by simp)⟩

/-! ## Tags and repositories of image references -/

theorem splitChars_of_not_mem (sep : Char) :
    ∀ l : List Char, sep ∉ l → strings.splitChars sep l = [l] := by
  intro l
  induction l with
  | nil => intro _; rfl
  | cons c cs ih =>
    intro h
    have hc : ¬ c = sep := fun e => h (by rw [e]; exact List.mem_cons_self _ _)
    have hcs : sep ∉ cs := fun e => h (List.mem_cons_of_mem _ e)
    simp [strings.splitChars, hc, ih hcs]

theorem splitChars_last_piece (sep : Char) (after : List Char) (hafter : sep ∉ after) :
    ∀ before : List Char,
      (strings.splitChars sep (before ++ sep :: after)).getLast? = some after ∧
      1 < (strings.splitChars sep (before ++ sep :: after)).length := by
  intro before
  induction before with
  | nil => simp [strings.splitChars, splitChars_of_not_mem sep after hafter]
  | cons c rest ih =>
    obtain ⟨hlast, hlen⟩ := ih
    rcases hsplit : strings.splitChars sep (rest ++ sep :: after) with _ | ⟨p, ps⟩
    · rw [hsplit] at hlen; simp at hlen
    · rw [hsplit] at hlast hlen
      rcases ps with _ | ⟨q, qs⟩
      · simp at hlen
      · by_cases hc : c = sep
        · have e : strings.splitChars sep ((c :: rest) ++ sep :: after) =
              [] :: p :: q :: qs := by
            rw [List.cons_append, strings.splitChars, if_pos hc, hsplit]
          rw [e]
          exact ⟨by simpa using hlast, by simp⟩
        · have e : strings.splitChars sep ((c :: rest) ++ sep :: after) =
              (c :: p) :: q :: qs := by
            rw [List.cons_append, strings.splitChars, if_neg hc, hsplit]
          rw [e]
          exact ⟨by simpa using hlast, by simp⟩

theorem splitChars_first_piece (sep : Char) :
    ∀ l : List Char,
      (strings.splitChars sep l).head? = some (l.takeWhile (fun c => c != sep)) := by
  intro l
  induction l with
  | nil => rfl
  | cons c cs ih =>
    by_cases hc : c = sep
    · simp [strings.splitChars, hc]
    · rcases hsplit : strings.splitChars sep cs with _ | ⟨p, ps⟩
      · exact absurd hsplit (splitChars_ne_nil sep cs)
      · rw [hsplit] at ih
        simp only [List.head?_cons, Option.some.injEq] at ih
        simp [strings.splitChars, hc, hsplit, ih]

theorem exists_last_occurrence (sep : Char) :
    ∀ l : List Char, sep ∈ l → ∃ before after, l = before ++ sep :: after ∧ sep ∉ after := by
  intro l
  induction l with
  | nil => intro h; cases h
  | cons c cs ih =>
    intro h
    by_cases hcs : sep ∈ cs
    · obtain ⟨before, after, hl, hafter⟩ := ih hcs
      exact ⟨c :: before, after, by rw [hl]; rfl, hafter⟩
    · rcases List.mem_cons.1 h with e | e
      · exact ⟨[], cs, by rw [e]; rfl, hcs⟩
      · exact absurd e hcs

theorem extractTag_after_last_colon (image : String) (before after : List Char)
    (hsplit : image.data = before ++ ':' :: after) (hafter : ':' ∉ after) :
    RegistryStrategy.extractTag image = String.mk after := by
  obtain ⟨hlast, hlen⟩ := splitChars_last_piece ':' after hafter before
  rw [← hsplit] at hlast hlen
  have hlen2 : (strings.Split image ':').length > 1 := by
    simpa [strings.Split] using hlen
  have hlast2 : (strings.Split image ':').getLast? = some (String.mk after) := by
    simp [strings.Split, hlast]
  unfold RegistryStrategy.extractTag
  simp only [hlen2, dite_true]
  rw [List.getLast?_eq_getElem?] at hlast2
  rw [List.getElem?_eq_getElem (by omega)] at hlast2
  simpa using hlast2

theorem extractTag_without_colon (image : String) (hnone : ':' ∉ image.data) :
    RegistryStrategy.extractTag image = "latest" := by
  unfold RegistryStrategy.extractTag
  simp [strings.Split, splitChars_of_not_mem ':' image.data hnone]

theorem extractRepository_eq (imageName : String) :
    RegistryStrategy.extractRepository imageName =
      if "/".data <:+: imageName.data.takeWhile (fun c => c != ':') then
        String.mk (imageName.data.takeWhile (fun c => c != ':'))
      else
        "library/" ++ String.mk (imageName.data.takeWhile (fun c => c != ':')) := by
  have hhead := splitChars_first_piece ':' imageName.data
  unfold RegistryStrategy.extractRepository
  simp only [strings.Split]
  rcases hsplit : strings.splitChars ':' imageName.data with _ | ⟨p, ps⟩
  · exact absurd hsplit (splitChars_ne_nil _ _)
  · rw [hsplit] at hhead
    simp only [List.head?_cons, Option.some.injEq] at hhead
    subst hhead
    simp only [List.map_cons]
    by_cases hc : strings.Contains (String.mk (imageName.data.takeWhile (fun c => c != ':')))
        "/" = true
    · have hin := (contains_iff_occurs _ _).1 hc
      simp only [hc, Bool.not_true, Bool.false_eq_true, if_false]
      rw [if_pos hin]
    · have hin : ¬ "/".data <:+: imageName.data.takeWhile (fun c => c != ':') :=
        fun h => hc ((contains_iff_occurs (String.mk _) "/").2 h)
      have hc2 : strings.Contains (String.mk (imageName.data.takeWhile (fun c => c != ':')))
          "/" = false := by
        simpa using hc
      simp only [hc2, Bool.not_false, if_true]
      rw [if_neg hin]

theorem takeWhile_before_first (sep : Char) (after : List Char) :
    ∀ before : List Char, sep ∉ before →
      (before ++ sep :: after).takeWhile (fun c => c != sep) = before := by
  intro before
  induction before with
  | nil => intro _; simp
  | cons c rest ih =>
    intro h
    have hc : ¬ c = sep := fun e => h (by rw [e]; exact List.mem_cons_self _ _)
    have hrest : sep ∉ rest := fun e => h (List.mem_cons_of_mem _ e)
    simp [List.takeWhile_cons, hc, ih hrest]

theorem takeWhile_without (sep : Char) :
    ∀ l : List Char, sep ∉ l → l.takeWhile (fun c => c != sep) = l := by
  intro l
  induction l with
  | nil => intro _; rfl
  | cons c rest ih =>
    intro h
    have hc : ¬ c = sep := fun e => h (by rw [e]; exact List.mem_cons_self _ _)
    have hrest : sep ∉ rest := fun e => h (List.mem_cons_of_mem _ e)
    simp [List.takeWhile_cons, hc, ih hrest]

/-- C12: `extractRepository` keeps the text of the reference before its first colon and
prepends `library/` exactly when that text contains no slash.  For a reference without
colon, or with one colon, that is the reference without its tag suffix: `nginx:1.25`
gives `library/nginx` and `myorg/app:latest` gives `myorg/app`.  For the reference
`registry.example.com:5000/app:1.0`, whose tag by `extractTag` is `1.0`, it gives
`library/registry.example.com` and not `registry.example.com:5000/app`. -/
theorem extractRepository_keeps_text_before_first_colon (imageName : String) :
    (RegistryStrategy.extractRepository imageName =
      if "/".data <:+: imageName.data.takeWhile (fun c => c != ':') then
        String.mk (imageName.data.takeWhile (fun c => c != ':'))
      else
        "library/" ++ String.mk (imageName.data.takeWhile (fun c => c != ':'))) ∧
    (':' ∉ imageName.data →
      RegistryStrategy.extractRepository imageName =
        if "/".data <:+: imageName.data then imageName else "library/" ++ imageName) ∧
    (∀ before after : List Char, imageName.data = before ++ ':' :: after →
      ':' ∉ before → ':' ∉ after →
      RegistryStrategy.extractTag imageName = String.mk after ∧
      RegistryStrategy.extractRepository imageName =
        if "/".data <:+: before then String.mk before else "library/" ++ String.mk before) ∧
    RegistryStrategy.extractRepository "nginx:1.25" = "library/nginx" ∧
    RegistryStrategy.extractRepository "myorg/app:latest" = "myorg/app" ∧
    RegistryStrategy.extractTag Example.portReference = "1.0" ∧
    RegistryStrategy.extractRepository Example.portReference =
      "library/registry.example.com" ∧
    RegistryStrategy.extractRepository Example.portReference ≠
      "registry.example.com:5000/app" := by
  refine ⟨extractRepository_eq imageName, ?_, ?_, by decide, by decide, by decide, by decide,
    by decide⟩
  · intro hnone
    rw [extractRepository_eq, takeWhile_without ':' imageName.data hnone]
  · intro before after hsplit hbefore hafter
    refine ⟨extractTag_after_last_colon imageName before after hsplit hafter, ?_⟩
    rw [extractRepository_eq, hsplit, takeWhile_before_first ':' after before hbefore]

theorem extractRepository_keeps_text_before_first_colon_witness :
    RegistryStrategy.extractRepository "redis" = "library/redis" ∧
    RegistryStrategy.extractTag "myorg/app:2.4" = "2.4" ∧
    RegistryStrategy.extractRepository "myorg/app:2.4" = "myorg/app" :=
  ⟨((extractRepository_keeps_text_before_first_colon "redis").2.1 (by decide)).trans
      (by decide),
   ((extractRepository_keeps_text_before_first_colon "myorg/app:2.4").2.2.1
      "myorg/app".data "2.4".data (by decide) (by decide) (by decide)).1,
   (((extractRepository_keeps_text_before_first_colon "myorg/app:2.4").2.2.1
      "myorg/app".data "2.4".data (by decide) (by decide) (by decide)).2).trans (by decide)⟩

/-! ## The current version -/

/-- C13: for an image string that contains a colon, `extractTag` returns the text after
the last colon, which contains no colon and is empty when the string ends in a colon;
for a string without colon it returns `latest`.  `RegistryStrategy.Check` leaves
`CurrentVersion` at `unknown` when the local inspection fails or the local image has no
repo tag, and otherwise sets it to `extractTag` of the first repo tag, whatever the
remote inspection and the tag listing do. -/
theorem extractTag_and_currentVersion {W : Type} (lib : StdLib W) (dc : DockerClient W)
    (container : model.Container) (w : W) (image : String) :
    (∀ before after : List Char, image.data = before ++ ':' :: after → ':' ∉ after →
      RegistryStrategy.extractTag image = String.mk after) ∧
    (':' ∈ image.data →
      (∃ before after : List Char, image.data = before ++ ':' :: after ∧ ':' ∉ after ∧
        RegistryStrategy.extractTag image = String.mk after) ∧
      ':' ∉ (RegistryStrategy.extractTag image).data) ∧
    (∀ before : List Char, image.data = before ++ [':'] →
      RegistryStrategy.extractTag image = "") ∧
    (':' ∉ image.data → RegistryStrategy.extractTag image = "latest") ∧
    (∀ err, (dc.cli.ImageInspectWithRaw container.ImageID w).1 = .error err →
      ∃ v, ((NewRegistryStrategy dc).Check lib container w).val = .ok v ∧
        v.CurrentVersion = "unknown") ∧
    (∀ img, (dc.cli.ImageInspectWithRaw container.ImageID w).1 = .ok img →
      ∃ v, ((NewRegistryStrategy dc).Check lib container w).val = .ok v ∧
        v.CurrentVersion =
          match img.RepoTags with
          | [] => "unknown"
          | first :: _ => RegistryStrategy.extractTag first) := by
  refine ⟨fun before after h1 h2 => extractTag_after_last_colon image before after h1 h2,
    ?_, ?_, extractTag_without_colon image, ?_, ?_⟩
  · intro hmem
    obtain ⟨before, after, hsplit, hafter⟩ := exists_last_occurrence ':' image.data hmem
    have htag := extractTag_after_last_colon image before after hsplit hafter
    exact ⟨⟨before, after, hsplit, hafter, htag⟩, by rw [htag]; exact hafter⟩
  · intro before hsplit
    exact extractTag_after_last_colon image before [] hsplit (List.not_mem_nil _)
  · intro err hlocal
    exact ⟨_, (check_local_failure lib dc container w err hlocal).1, rfl⟩
  · intro img hlocal
    rcases hremote : (dc.cli.DistributionInspect container.ImageName
        (dc.cli.ImageInspectWithRaw container.ImageID w).2).1 with err | remote
    · exact ⟨_, (check_remote_failure lib dc container w img err hlocal hremote).1, rfl⟩
    · exact ⟨_, check_both_inspections_ok lib dc container w img remote hlocal hremote, rfl⟩

theorem extractTag_and_currentVersion_witness :
    RegistryStrategy.extractTag "nginx:1.25" = "1.25" ∧
    RegistryStrategy.extractTag Example.portReference = "1.0" ∧
    ':' ∉ (RegistryStrategy.extractTag Example.portReference).data ∧
    RegistryStrategy.extractTag "nginx:" = "" ∧
    RegistryStrategy.extractTag "nginx" = "latest" ∧
    (∃ v, ((NewRegistryStrategy Example.dockerClient).Check Example.lib Example.ghost 0).val =
      .ok v ∧ v.CurrentVersion = "unknown") ∧
    (∃ v, ((NewRegistryStrategy Example.dockerClient).Check Example.lib Example.nginx 0).val =
      .ok v ∧ v.CurrentVersion = "7") :=
  ⟨(extractTag_and_currentVersion Example.lib Example.dockerClient Example.redis 0
      "nginx:1.25").1 "nginx".data "1.25".data (by decide) (by decide),
   (extractTag_and_currentVersion Example.lib Example.dockerClient Example.redis 0
      Example.portReference).1 "registry.example.com:5000/app".data "1.0".data (by decide)
      (by decide),
   ((extractTag_and_currentVersion Example.lib Example.dockerClient Example.redis 0
      Example.portReference).2.1 (by decide)).2,
   (extractTag_and_currentVersion Example.lib Example.dockerClient Example.redis 0
      "nginx:").2.2.1 "nginx".data (by decide),
   (extractTag_and_currentVersion Example.lib Example.dockerClient Example.redis 0
      "nginx").2.2.2.1 (by decide),
   (extractTag_and_currentVersion Example.lib Example.dockerClient Example.ghost 0
      "nginx").2.2.2.2.1 ⟨"No such image"⟩ rfl,
   (extractTag_and_currentVersion Example.lib Example.dockerClient Example.nginx 0
      "nginx").2.2.2.2.2 { ID := "sha256:BBB", RepoTags := ["redis:7"] } rfl⟩

end docker

end DockerImageChecker
